import Mathlib

/-!
Shallow embedding of the directory reading, sorting and comparison core of
GNU diff (dir.c together with the relevant parts of system.h).

File names are modelled as Lean strings compared code-point-wise, which
mirrors the byte-wise strcmp used by the C code (file_name_cmp defaults to
strcmp in system.h).  The locale collation functions strcoll and
strcasecoll are external collaborators; they are modelled as oracle
functions returning Option Int, where none models the errno-reporting
failure path.  The static globals locale_specific_sorting and the count of
emitted collation diagnostics are threaded explicitly as a state value.
-/

namespace DiffDir

/-- Byte-wise three-way string comparison on character lists, modelling the C
strcmp over the underlying bytes.  Returns a negative, zero or positive value
exactly as strcmp does (normalised to -1, 0, 1, which the source only ever
inspects by sign or zero test). -/
def strcmpL : List Char → List Char → Int
  | [], [] => 0
  | [], _ :: _ => -1
  | _ :: _, [] => 1
  | a :: as, b :: bs =>
      if a.toNat < b.toNat then -1
      else if b.toNat < a.toNat then 1
      else strcmpL as bs

/-- file_name_cmp from system.h: on POSIX it is plain strcmp, a raw byte-wise
ordinal comparison of the two names. -/
def file_name_cmp (a b : String) : Int :=
  strcmpL a.data b.data

theorem char_toNat_inj {a b : Char} (h : a.toNat = b.toNat) : a = b := by
  have h2 : Char.ofNat a.toNat = Char.ofNat b.toNat := congrArg Char.ofNat h
  rwa [Char.ofNat_toNat, Char.ofNat_toNat] at h2

theorem strcmpL_eq_zero : ∀ (x y : List Char), strcmpL x y = 0 ↔ x = y := by
  intro x
  induction x with
  | nil => intro y; cases y <;> simp [strcmpL]
  | cons a as ih =>
    intro y
    cases y with
    | nil => simp [strcmpL]
    | cons b bs =>
      by_cases h1 : a.toNat < b.toNat
      · have hne : a ≠ b := by
          intro hab; rw [hab] at h1; exact Nat.lt_irrefl _ h1
        simp [strcmpL, h1, hne]
      · by_cases h2 : b.toNat < a.toNat
        · have hne : a ≠ b := by
            intro hab; rw [hab] at h2; exact Nat.lt_irrefl _ h2
          simp [strcmpL, h1, h2, hne]
        · have hab : a = b := char_toNat_inj (by omega)
          simp [strcmpL, h1, h2, hab, ih]

/-- file_name_cmp returns zero exactly on byte-identical names. -/
theorem file_name_cmp_eq_zero {a b : String} : file_name_cmp a b = 0 ↔ a = b := by
  unfold file_name_cmp
  rw [strcmpL_eq_zero]
  constructor
  · intro h; cases a; cases b; exact congrArg String.mk h
  · intro h; simp [h]

/-- The configuration and external collaborators the core consumes:
the ignore_file_name_case and no_dereference_symlinks flags, the
starting_file option, the exclusion predicate excluded_file_name, and the
locale collation oracles (none models the errno failure path of
strcoll / strcasecoll). -/
structure Env where
  ignore_file_name_case : Bool
  strcoll : String → String → Option Int
  strcasecoll : String → String → Option Int
  excluded : String → Bool
  starting_file : Option String

/-- The collation function compare_collated dispatches to:
strcasecoll when ignore_file_name_case, otherwise strcoll. -/
def collFor (env : Env) : String → String → Option Int :=
  if env.ignore_file_name_case then env.strcasecoll else env.strcoll

/-- The mutable globals of dir.c that the comparison routines touch:
locale_specific_sorting (lss), and a count of the collation failure
diagnostics emitted so far (each compare_collated failure prints one
"cannot compare file names" message before taking the longjmp). -/
structure GState where
  lss : Bool
  collDiags : Nat
  deriving DecidableEq, Repr

/-- compare_collated: invoke the locale collation function; on success return
its value with the state unchanged; on failure record the one diagnostic it
prints and signal the longjmp by returning none.  (The caller of the longjmp
target is the enclosing diff_dirs, which clears locale_specific_sorting.) -/
def compare_collated (env : Env) (g : GState) (a b : String) :
    GState × Option Int :=
  match collFor env a b with
  | some r => (g, some r)
  | none => ({ g with collDiags := g.collDiags + 1 }, none)

/-- compare_names: if locale_specific_sorting is active, use the collated
comparison; its result is final when it is nonzero or when
ignore_file_name_case is set; otherwise fall through to file_name_cmp.
A none result propagates the longjmp of a collation failure. -/
def compare_names (env : Env) (g : GState) (a b : String) :
    GState × Option Int :=
  if g.lss then
    match compare_collated env g a b with
    | (g1, none) => (g1, none)
    | (g1, some d) =>
        (g1, some (if d ≠ 0 ∨ env.ignore_file_name_case then d else file_name_cmp a b))
  else (g, some (file_name_cmp a b))

/-- compare_names_for_qsort: like compare_names but always breaks collated
ties with file_name_cmp, regardless of ignore_file_name_case. -/
def compare_names_for_qsort (env : Env) (g : GState) (a b : String) :
    GState × Option Int :=
  if g.lss then
    match compare_collated env g a b with
    | (g1, none) => (g1, none)
    | (g1, some d) => (g1, some (if d ≠ 0 then d else file_name_cmp a b))
  else (g, some (file_name_cmp a b))

theorem compare_names_none_lss {env : Env} {g g1 : GState} {a b : String}
    (h : compare_names env g a b = (g1, none)) : g.lss = true := by
  by_cases hl : g.lss
  · exact hl
  · rw [compare_names, if_neg hl] at h
    simp [Prod.mk.injEq] at h

theorem compare_names_some_state {env : Env} {g g1 : GState} {a b : String}
    {d : Int} (h : compare_names env g a b = (g1, some d)) : g1 = g := by
  by_cases hl : g.lss
  · rw [compare_names, if_pos hl] at h
    unfold compare_collated at h
    cases hc : collFor env a b with
    | some r =>
      rw [hc] at h
      simp [Prod.mk.injEq] at h
      exact h.1.symm
    | none =>
      rw [hc] at h
      simp [Prod.mk.injEq] at h
  · rw [compare_names, if_neg hl] at h
    simp [Prod.mk.injEq] at h
    exact h.1.symm

/-- Total variant of compare_names, as used to model the compare_names calls
made while reading a directory (dir_read) and while looking up a single name
(find_dir_file_pathname).  Those calls happen outside the setjmp protection
established by diff_dirs, where the C longjmp target is stale or not yet
set; this model resolves that corner by falling back to raw ordering, which
is also what every claim about these call sites exercises (their collation
oracles are total there). -/
def compare_namesT (env : Env) (lss : Bool) (a b : String) : Int :=
  if lss then
    match collFor env a b with
    | some d => if d ≠ 0 ∨ env.ignore_file_name_case then d else file_name_cmp a b
    | none => file_name_cmp a b
  else file_name_cmp a b

/-- The desc field of a file_data, as dir.c uses it: the NONEXISTENT
sentinel, a negative not-yet-opened value, or an open descriptor. -/
inductive Desc where
  | NONEXISTENT : Desc
  | UNOPENED : Desc
  | OPENED : Nat → Desc
  deriving DecidableEq, Repr

/-- The operating-system behaviour of one directory, the external
collaborator behind openat, fdopendir and readdir: whether the openat call
would succeed (consulted only when the directory is not already open),
whether fdopendir would succeed, the entry names readdir would yield in
order, and whether readdir would end with an errno error after yielding
them. -/
structure DirStream where
  openat_ok : Bool
  fdopendir_ok : Bool
  ents : List String
  readdir_error : Bool

/-- One side of a comparison: the file_data fields dir.c touches.  The
identity is the cached stat result used by same_file; known is false when
the identity is unavailable (for example for a nonexistent file), making
same_file answer unknown. -/
structure FileId where
  known : Bool
  dev : Nat
  ino : Nat
  rdevSpecial : Option Nat
  deriving DecidableEq, Repr

/-- same_special_file from system.h: both stat results describe block or
character special files sharing a device number. -/
def same_special_file (s t : FileId) : Bool :=
  match s.rdevSpecial, t.rdevSpecial with
  | some u, some v => u = v
  | _, _ => false

/-- same_file from system.h: positive when the two stat results denote the
same inode (same device and inode number, both known) or the same special
file (block or character devices sharing a device number); zero when they
are known to differ; negative when the answer is unknown. -/
def same_file (s t : FileId) : Int :=
  if s.known ∧ t.known ∧ s.dev = t.dev ∧ s.ino = t.ino then 1
  else if same_special_file s t then 1
  else if s.known ∧ t.known then 0
  else -1

/-- The file_data fields of one comparison side that dir.c reads. -/
structure FileData where
  name : String
  desc : Desc
  ident : FileId
  deriving DecidableEq, Repr

/-- A node of the comparison tree: the two sides (indexed by a boolean,
false for side 0) and the chain of real ancestors, nearest first; noparent
is represented by the end of that list. -/
structure CompNode where
  file : Bool → FileData
  parents : List (Bool → FileData)

/-- dir_loop: walk the ancestor chain and report a loop when some ancestor
on side i is the same underlying file as the current side i. -/
def dir_loop (cmp : CompNode) (i : Bool) : Bool :=
  cmp.parents.any (fun p => 0 < same_file (p i).ident (cmp.file i).ident)

def EXIT_SUCCESS : Int := 0
def EXIT_TROUBLE : Int := 2

/-- Is the entry "." or ".."?  dir_read skips these. -/
def isDotName (d : String) : Bool :=
  d = "." || d = ".."

/-- The filter dir_read applies to each entry read from the directory:
skip "." and "..", then skip entries before the startfile cursor (and, in
startfile_only mode, entries not equal to it) under the current name
comparator, then skip excluded names. -/
def keepEntry (env : Env) (lss : Bool) (startfile : Option String)
    (startfile_only : Bool) (d : String) : Bool :=
  !isDotName d &&
  (match startfile with
   | some s =>
       let cmp := compare_namesT env lss d s
       !(cmp < 0 || (startfile_only && !(cmp = 0)))
   | none => true) &&
  !env.excluded d

/-- dir_read: for a side known to be nonexistent, succeed with an empty
name table without consulting the directory stream at all.  Otherwise open
the directory if needed (openat may fail), obtain the stream (fdopendir may
fail), and collect the surviving entries in readdir order; an errno error
from readdir fails the whole read, discarding the partial table.  none
models the false return of the C function. -/
def dir_read (env : Env) (lss : Bool) (desc : Desc) (stream : DirStream)
    (startfile : Option String) (startfile_only : Bool) :
    Option (List String) :=
  match desc with
  | Desc.NONEXISTENT => some []
  | Desc.UNOPENED =>
      if !stream.openat_ok then none
      else if !stream.fdopendir_ok then none
      else if stream.readdir_error then none
      else some (stream.ents.filter (keepEntry env lss startfile startfile_only))
  | Desc.OPENED _ =>
      if !stream.fdopendir_ok then none
      else if stream.readdir_error then none
      else some (stream.ents.filter (keepEntry env lss startfile startfile_only))

/-- Insertion into a list sorted by the boolean comparison le. -/
def insertBy (le : String → String → Bool) (x : String) :
    List String → List String
  | [] => [x]
  | y :: ys => if le x y then x :: y :: ys else y :: insertBy le x ys

/-- Deterministic sort standing in for qsort; qsort promises only a sorted
permutation, and every comparator passed to it here is a total order on the
(distinct) names being sorted, so the result is the same sorted sequence. -/
def sortBy (le : String → String → Bool) : List String → List String
  | [] => []
  | x :: xs => insertBy le x (sortBy le xs)

/-- The raw-ordering sort used after locale-specific sorting failed:
compare_names_for_qsort with locale_specific_sorting clear is exactly
file_name_cmp. -/
def rawSort : List String → List String :=
  sortBy (fun a b => file_name_cmp a b ≤ 0)

/-- Fallible insertion: the comparator returns none when the collation
oracle fails, which aborts the whole sort (modelling the longjmp taken out
of qsort). -/
def insertByE (c : String → String → Option Int) (x : String) :
    List String → Option (List String)
  | [] => some [x]
  | y :: ys =>
      match c x y with
      | none => none
      | some d =>
          if d ≤ 0 then some (x :: y :: ys)
          else match insertByE c x ys with
               | none => none
               | some l => some (y :: l)

/-- Fallible sort standing in for the qsort calls of diff_dirs while
locale-specific sorting is active. -/
def sortByE (c : String → String → Option Int) :
    List String → Option (List String)
  | [] => some []
  | x :: xs =>
      match sortByE c xs with
      | none => none
      | some l => insertByE c x l

theorem length_insertBy (le : String → String → Bool) (x : String) :
    ∀ l : List String, (insertBy le x l).length = l.length + 1 := by
  intro l
  induction l with
  | nil => rfl
  | cons y ys ih =>
      by_cases h : le x y
      · simp [insertBy, h]
      · simp [insertBy, h, ih]

theorem length_sortBy (le : String → String → Bool) :
    ∀ l : List String, (sortBy le l).length = l.length := by
  intro l
  induction l with
  | nil => rfl
  | cons x xs ih => simp [sortBy, length_insertBy, ih]

theorem length_rawSort (l : List String) : (rawSort l).length = l.length :=
  length_sortBy _ l

theorem perm_insertBy (le : String → String → Bool) (x : String) :
    ∀ l : List String, (insertBy le x l).Perm (x :: l) := by
  intro l
  induction l with
  | nil => simp [insertBy]
  | cons y ys ih =>
      by_cases h : le x y
      · simp [insertBy, h]
      · simp only [insertBy, h, if_neg]
        exact ((ih.cons y).trans (List.Perm.swap x y ys)).trans (List.Perm.refl _)

theorem perm_rawSort : ∀ l : List String, (rawSort l).Perm l := by
  intro l
  induction l with
  | nil => exact List.Perm.refl _
  | cons x xs ih =>
      exact (perm_insertBy _ x (rawSort xs)).trans (ih.cons x)

/-- The state transition taken at the setjmp target of diff_dirs when a
collation failure longjmps back: locale-specific sorting is permanently
cleared for the remainder of this call. -/
def jumpState (g : GState) : GState := { g with lss := false }

/-- Result of the forward scan of the tie-break pass (lines 284-299 of
dir.c): the scan hit a collation failure (jumped), ran off the run of
comparator-equal names or met an ordinally greater name (noRot), or found a
byte-wise exact match of the greater name and removed it from the run
(rotated, carrying the run remainder with that element deleted). -/
inductive TB where
  | jumped : TB
  | noRot : TB
  | rotated : List String → TB

/-- The forward scan of the tie-break pass over the tail of the lesser side:
walk while the entry still compares equal to greater_name under
compare_names; stop at the first entry whose file_name_cmp against
greater_name is nonnegative, rotating it to the front of the run when it is
an exact byte-wise match (the memmove of dir.c, expressed by deleting the
matched element here and re-inserting greater_name at the front in the
caller). -/
def tbGo (env : Env) (gname : String) : GState → List String → GState × TB
  | g, [] => (g, TB.noRot)
  | g, x :: xs =>
      match compare_names env g x gname with
      | (g1, none) => (g1, TB.jumped)
      | (g1, some c0) =>
          if c0 = 0 then
            if file_name_cmp x gname < 0 then
              match tbGo env gname g1 xs with
              | (g2, TB.rotated nt) => (g2, TB.rotated (x :: nt))
              | other => other
            else if file_name_cmp x gname = 0 then (g1, TB.rotated xs)
            else (g1, TB.noRot)
          else (g1, TB.noRot)

theorem tbGo_jumped_lss {env : Env} {gname : String} :
    ∀ {g g2 : GState} {t : List String},
      tbGo env gname g t = (g2, TB.jumped) → g.lss = true := by
  intro g g2 t
  induction t generalizing g with
  | nil => intro h; simp [tbGo] at h
  | cons x xs ih =>
      intro h
      rw [tbGo] at h
      cases hc : compare_names env g x gname with
      | mk g1 r =>
          cases r with
          | none => exact compare_names_none_lss hc
          | some c0 =>
              rw [hc] at h
              simp only at h
              by_cases h0 : c0 = 0
              · rw [if_pos h0] at h
                by_cases h1 : file_name_cmp x gname < 0
                · rw [if_pos h1] at h
                  have hg1 : g1 = g := compare_names_some_state hc
                  cases htb : tbGo env gname g1 xs with
                  | mk g3 tb =>
                      cases tb with
                      | jumped =>
                          rw [htb] at h
                          have := ih (g := g1) (by rw [htb]; simp_all)
                          rw [hg1] at this; exact this
                      | noRot => rw [htb] at h; simp at h
                      | rotated nt => rw [htb] at h; simp at h
                · rw [if_neg h1] at h
                  by_cases h2 : file_name_cmp x gname = 0
                  · rw [if_pos h2] at h; simp at h
                  · rw [if_neg h2] at h; simp at h
              · rw [if_neg h0] at h; simp at h

theorem tbGo_rotated_length {env : Env} {gname : String} :
    ∀ {g g2 : GState} {t nt : List String},
      tbGo env gname g t = (g2, TB.rotated nt) → nt.length + 1 = t.length := by
  intro g g2 t
  induction t generalizing g g2 with
  | nil => intro nt h; simp [tbGo] at h
  | cons x xs ih =>
      intro nt h
      rw [tbGo] at h
      cases hc : compare_names env g x gname with
      | mk g1 r =>
          cases r with
          | none => rw [hc] at h; simp at h
          | some c0 =>
              rw [hc] at h
              simp only at h
              by_cases h0 : c0 = 0
              · rw [if_pos h0] at h
                by_cases h1 : file_name_cmp x gname < 0
                · rw [if_pos h1] at h
                  cases htb : tbGo env gname g1 xs with
                  | mk g3 tb =>
                      cases tb with
                      | jumped => rw [htb] at h; simp at h
                      | noRot => rw [htb] at h; simp at h
                      | rotated nt2 =>
                          rw [htb] at h
                          simp at h
                          obtain ⟨-, h3⟩ := h
                          have := ih (g := g1) htb
                          simp [← h3, List.length_cons]
                          omega
                · rw [if_neg h1] at h
                  by_cases h2 : file_name_cmp x gname = 0
                  · rw [if_pos h2] at h
                    simp at h
                    simp [h.2.symm]
                  · rw [if_neg h2] at h; simp at h
              · rw [if_neg h0] at h; simp at h

theorem tbGo_rotated_perm {env : Env} {gname : String} :
    ∀ {g g2 : GState} {t nt : List String},
      tbGo env gname g t = (g2, TB.rotated nt) → (gname :: nt).Perm t := by
  intro g g2 t
  induction t generalizing g g2 with
  | nil => intro nt h; simp [tbGo] at h
  | cons x xs ih =>
      intro nt h
      rw [tbGo] at h
      cases hc : compare_names env g x gname with
      | mk g1 r =>
          cases r with
          | none => rw [hc] at h; simp at h
          | some c0 =>
              rw [hc] at h
              simp only at h
              by_cases h0 : c0 = 0
              · rw [if_pos h0] at h
                by_cases h1 : file_name_cmp x gname < 0
                · rw [if_pos h1] at h
                  cases htb : tbGo env gname g1 xs with
                  | mk g3 tb =>
                      cases tb with
                      | jumped => rw [htb] at h; simp at h
                      | noRot => rw [htb] at h; simp at h
                      | rotated nt2 =>
                          rw [htb] at h
                          simp at h
                          obtain ⟨-, h3⟩ := h
                          have hperm := ih (g := g1) htb
                          rw [← h3]
                          exact (List.Perm.swap x gname nt2).trans (hperm.cons x)
                · rw [if_neg h1] at h
                  by_cases h2 : file_name_cmp x gname = 0
                  · rw [if_pos h2] at h
                    simp at h
                    have hx : x = gname := file_name_cmp_eq_zero.mp h2
                    rw [← h.2, hx]
                  · rw [if_neg h2] at h; simp at h
              · rw [if_neg h0] at h; simp at h

/-- A pair delivered to the caller-supplied handler: name in dir 0 (none if
absent), name in dir 1 (none if absent). -/
abbrev Pair := Option String × Option String

/-- The caller-supplied handle_file subroutine.  It may touch the globals
(the recursive driver of diff re-enters diff_dirs from inside it), so it
maps the global state to a new global state together with its int result. -/
abbrev Handler := GState → Option String → Option String → GState × Int

theorem tbGo_jumped_lss_of {env : Env} {gname : String} {g g2 : GState}
    {t : List String} (h : tbGo env gname g t = (g2, TB.jumped)) :
    g.lss = true :=
  tbGo_jumped_lss h

/-- The merge loop of diff_dirs (lines 262-308): while names remain, compare
the two current heads (an exhausted side counts as infinitely large), run
the case-insensitive tie-break pass when the heads compare equal with
ignore_file_name_case set and differ byte-wise, deliver the pair to the
handler, and advance the cursors.  A collation failure longjmps back to the
setjmp point, which clears locale_specific_sorting, re-sorts the remaining
names (now with raw ordering) and resumes the loop.  Returns the final
global state and the delivered pairs, each with the handler result for it. -/
def mergeGo (env : Env) (h : Handler) (g : GState) :
    List String → List String → GState × List (Pair × Int)
  | [], [] => (g, [])
  | [], b :: rs =>
      let hr := h g none (some b)
      let rest := mergeGo env h hr.1 [] rs
      (rest.1, ((none, some b), hr.2) :: rest.2)
  | a :: ls, [] =>
      let hr := h g (some a) none
      let rest := mergeGo env h hr.1 ls []
      (rest.1, ((some a, none), hr.2) :: rest.2)
  | a :: ls, b :: rs =>
      match hc : compare_names env g a b with
      | (g1, none) =>
          mergeGo env h (jumpState g1) (rawSort (a :: ls)) (rawSort (b :: rs))
      | (g1, some d) =>
          if d = 0 ∧ env.ignore_file_name_case ∧ file_name_cmp a b ≠ 0 then
            if file_name_cmp a b < 0 then
              match htb : tbGo env b g1 ls with
              | (g2, TB.jumped) =>
                  mergeGo env h (jumpState g2) (rawSort (a :: ls)) (rawSort (b :: rs))
              | (g2, TB.noRot) =>
                  let hr := h g2 (some a) (some b)
                  let rest := mergeGo env h hr.1 ls rs
                  (rest.1, ((some a, some b), hr.2) :: rest.2)
              | (g2, TB.rotated nt) =>
                  let hr := h g2 (some b) (some b)
                  let rest := mergeGo env h hr.1 (a :: nt) rs
                  (rest.1, ((some b, some b), hr.2) :: rest.2)
            else
              match htb : tbGo env a g1 rs with
              | (g2, TB.jumped) =>
                  mergeGo env h (jumpState g2) (rawSort (a :: ls)) (rawSort (b :: rs))
              | (g2, TB.noRot) =>
                  let hr := h g2 (some a) (some b)
                  let rest := mergeGo env h hr.1 ls rs
                  (rest.1, ((some a, some b), hr.2) :: rest.2)
              | (g2, TB.rotated nt) =>
                  let hr := h g2 (some a) (some a)
                  let rest := mergeGo env h hr.1 ls (b :: nt)
                  (rest.1, ((some a, some a), hr.2) :: rest.2)
          else
            if d < 0 then
              let hr := h g1 (some a) none
              let rest := mergeGo env h hr.1 ls (b :: rs)
              (rest.1, ((some a, none), hr.2) :: rest.2)
            else if 0 < d then
              let hr := h g1 none (some b)
              let rest := mergeGo env h hr.1 (a :: ls) rs
              (rest.1, ((none, some b), hr.2) :: rest.2)
            else
              let hr := h g1 (some a) (some b)
              let rest := mergeGo env h hr.1 ls rs
              (rest.1, ((some a, some b), hr.2) :: rest.2)
  termination_by l r => 2 * (l.length + r.length) + (if g.lss then 1 else 0)
  decreasing_by
  all_goals simp only [jumpState, length_rawSort, List.length_cons]
  all_goals first
    | (split <;> omega)
    | (have hlss : g.lss = true := compare_names_none_lss hc
       simp [hlss])
    | (have hg1 : g1 = g := compare_names_some_state hc
       have hlss : g.lss = true := by
         have h2 := tbGo_jumped_lss_of htb
         rw [hg1] at h2; exact h2
       simp [hlss])
    | (have hlen := tbGo_rotated_length htb
       split <;> omega)

/-- The observable outcome of one diff_dirs call: its return value, the
name printed by the "recursive directory loop" diagnostic if it fired, the
names printed by perror_with_name for sides whose dir_read failed (in side
order), and the pairs delivered to the handler, each with the handler
result for it.  Collation-failure diagnostics are counted in the global
state instead, since compare_collated emits them. -/
structure DDOut where
  val : Int
  loopDiag : Option String
  readDiags : List String
  pairs : List (Pair × Int)
  deriving DecidableEq

/-- diff_dirs, the top-level directory comparison routine: refuse with the
recursive-loop diagnostic when each side is nonexistent or looping; read
both directories, mapping a failed read to one perror diagnostic per failed
side and EXIT_TROUBLE with no pairs delivered; otherwise enable
locale-specific sorting, sort both name tables (a collation failure during
sorting longjmps back, clears the flag and re-sorts with raw ordering), run
the merge loop, and return the maximum of EXIT_SUCCESS and all handler
results. -/
def diff_dirs (env : Env) (g : GState) (cmp : CompNode)
    (streams : Bool → DirStream) (h : Handler) : GState × DDOut :=
  if ((cmp.file false).desc = Desc.NONEXISTENT ∨ dir_loop cmp false = true)
     ∧ ((cmp.file true).desc = Desc.NONEXISTENT ∨ dir_loop cmp true = true) then
    (g, { val := EXIT_TROUBLE
          loopDiag := some (if (cmp.file false).desc = Desc.NONEXISTENT
                            then (cmp.file true).name else (cmp.file false).name)
          readDiags := []
          pairs := [] })
  else
    let startf := if cmp.parents = [] then env.starting_file else none
    let r0 := dir_read env g.lss (cmp.file false).desc (streams false) startf false
    let r1 := dir_read env g.lss (cmp.file true).desc (streams true) startf false
    match r0, r1 with
    | some n0, some n1 =>
        let g1 : GState := { g with lss := true }
        let qcmp := fun a b => (compare_names_for_qsort env g1 a b).2
        let sortedPair :=
          match sortByE qcmp n0 with
          | none =>
              ({ lss := false, collDiags := g1.collDiags + 1 : GState },
               rawSort n0, rawSort n1)
          | some s0 =>
              match sortByE qcmp n1 with
              | none =>
                  ({ lss := false, collDiags := g1.collDiags + 1 : GState },
                   rawSort n0, rawSort n1)
              | some s1 => (g1, s0, s1)
        let merged := mergeGo env h sortedPair.1 sortedPair.2.1 sortedPair.2.2
        (merged.1,
         { val := merged.2.foldl (fun v pv => max v pv.2) EXIT_SUCCESS
           loopDiag := none
           readDiags := []
           pairs := merged.2 })
    | _, _ =>
        (g, { val := EXIT_TROUBLE
              loopDiag := none
              readDiags :=
                (match r0 with
                 | none => [(cmp.file false).name]
                 | some _ => []) ++
                (match r1 with
                 | none => [(cmp.file true).name]
                 | some _ => [])
              pairs := [] })

/-- file_name_concat from gnulib: join a directory name and a file name
with a separator.  Only which name gets joined matters to the claims. -/
def file_name_concat (d f : String) : String := d ++ "/" ++ f

/-- The continuation of the matching loop of find_dir_file_pathname after
the first candidate has been latched as match (the pointer test
match == file is false from then on): keep the first candidate unless an
exact byte-wise match appears. -/
def scanMatchCont (file first : String) : List String → String
  | [] => first
  | p :: ps => if file_name_cmp p file = 0 then p else scanMatchCont file first ps

/-- The matching loop of find_dir_file_pathname: break at the first exact
byte-wise match; otherwise latch the first candidate seen. -/
def scanMatch (file : String) : List String → String
  | [] => file
  | p :: ps => if file_name_cmp p file = 0 then p else scanMatchCont file p ps

/-- find_dir_file_pathname: when ignore_file_name_case is set, read just
the run of directory entries that compare equal to the target name (the
restart cursor with startfile_only) and prefer an exact byte-wise match in
it, else its first candidate; otherwise, or when the read fails, use the
target name itself.  Returns the joined path. -/
def find_dir_file_pathname (env : Env) (lss : Bool) (dir : FileData)
    (stream : DirStream) (file : String) : String :=
  let m :=
    if env.ignore_file_name_case then
      match dir_read env lss dir.desc stream (some file) true with
      | some names => scanMatch file names
      | none => file
    else file
  file_name_concat dir.name m

/-! Concrete instances used to exercise the model on the inputs named by
the specification. -/

/-- A locale whose collation agrees with raw byte order and never fails. -/
def byteColl (a b : String) : Option Int := some (file_name_cmp a b)

/-- A case-folding collation: lower-case both names, then byte order.
Never fails. -/
def foldColl (a b : String) : Option Int :=
  some (strcmpL (a.data.map Char.toLower) (b.data.map Char.toLower))

/-- Environment with case-folding enabled and total collation oracles. -/
def envFold : Env :=
  { ignore_file_name_case := true
    strcoll := byteColl
    strcasecoll := foldColl
    excluded := fun _ => false
    starting_file := none }

/-- Environment with case-folding disabled and total collation oracles. -/
def envPlain : Env :=
  { ignore_file_name_case := false
    strcoll := byteColl
    strcasecoll := foldColl
    excluded := fun _ => false
    starting_file := none }

/-- Environment whose locale collation always reports an error. -/
def envFail : Env :=
  { ignore_file_name_case := false
    strcoll := fun _ _ => none
    strcasecoll := fun _ _ => none
    excluded := fun _ => false
    starting_file := none }

/-- Global state with locale-specific sorting active. -/
def gTrue : GState := { lss := true, collDiags := 0 }

/-- Global state with locale-specific sorting inactive (the initial value
of the static flag). -/
def gFalse : GState := { lss := false, collDiags := 0 }

/-- A handler that ignores every pair: used to observe the pair stream. -/
def handler0 : Handler := fun g _ _ => (g, EXIT_SUCCESS)

/-- Claim C4 (confirmed): with case-folding enabled, merging the sorted
left table ["A", "b"] against the sorted right table ["a", "B"] delivers
exactly the pairs ("A","a") and ("b","B"): exact byte-wise matches are
paired, not cross-case pairings. -/
theorem merge_casefold_prefers_exact_pairs :
    (mergeGo envFold handler0 gTrue ["A", "b"] ["a", "B"]).2.map Prod.fst
      = [(some "A", some "a"), (some "b", some "B")] := by
  simp [mergeGo, compare_names, compare_collated, collFor, envFold, foldColl,
        byteColl, handler0, file_name_cmp, strcmpL, tbGo, EXIT_SUCCESS, gTrue]

/-- Claim C1 (counterexample): with collated ordering active and
case-folding requested, a pair of names whose collated comparison is equal
is reported equal by compare_names; it does NOT fall through to the raw
byte-wise tie-break (which would be nonzero here).  The claimed tie-break
fallthrough happens in the opposite branch, when case-folding is not
requested. -/
theorem compare_names_casefold_counterexample :
    gTrue.lss = true ∧
    envFold.ignore_file_name_case = true ∧
    collFor envFold "A" "a" = some 0 ∧
    file_name_cmp "A" "a" ≠ 0 ∧
    compare_names envFold gTrue "A" "a" = (gTrue, some 0) := by
  refine ⟨rfl, rfl, by decide, by decide, by decide⟩

/-- Claim C1 (corrected): with collated ordering active, compare_names
returns the collated result whenever it is nonzero; when the collated
result is equal and case-folding IS requested, that equal result is final;
when case-folding is NOT requested and the collated result is equal,
compare_names falls through to raw byte-wise ordering as the tie-break. -/
theorem compare_names_collated_cases (env : Env) (g : GState) (a b : String)
    (d : Int) (hl : g.lss = true) (hc : collFor env a b = some d) :
    (d ≠ 0 → compare_names env g a b = (g, some d)) ∧
    (d = 0 → env.ignore_file_name_case = true →
       compare_names env g a b = (g, some d)) ∧
    (d = 0 → env.ignore_file_name_case = false →
       compare_names env g a b = (g, some (file_name_cmp a b))) := by
  refine ⟨?_, ?_, ?_⟩ <;> intro h1 <;>
    simp [compare_names, compare_collated, hl, hc, h1]
  · intro h2
    simp [h1, h2]
  · intro h2
    simp [h1, h2]

/-- Witness for compare_names_collated_cases at a concrete input. -/
theorem compare_names_collated_cases_witness :
    compare_names envFold gTrue "A" "a" = (gTrue, some 0) :=
  (compare_names_collated_cases envFold gTrue "A" "a" 0 rfl (by decide)).2.1
    rfl rfl

/-- Claim C8 (confirmed): for a directory side marked with the NONEXISTENT
sentinel, dir_read succeeds with an empty name table and consults neither
the open nor the enumeration behaviour of the operating system (the result
is the same for every directory stream). -/
theorem dir_read_nonexistent (env : Env) (lss : Bool) (stream : DirStream)
    (startfile : Option String) (startfile_only : Bool) :
    dir_read env lss Desc.NONEXISTENT stream startfile startfile_only
      = some [] := rfl

/-- The directory stream enumerating a, m, z without errors. -/
def streamAMZ : DirStream :=
  { openat_ok := true, fdopendir_ok := true
    ents := ["a", "m", "z"], readdir_error := false }

/-- Claim C7 (confirmed): with the restart cursor at "m" and only-mode off,
enumerating a, m, z keeps m and z; with only-mode on it keeps just m; and
in general every name dir_read returns with a cursor is not ordered before
the cursor (and equals it in only-mode) under the current comparator. -/
theorem dir_read_restart_cursor :
    (dir_read envPlain false Desc.UNOPENED streamAMZ (some "m") false
       = some ["m", "z"]) ∧
    (dir_read envPlain false Desc.UNOPENED streamAMZ (some "m") true
       = some ["m"]) ∧
    (∀ env lss desc stream s only out,
       dir_read env lss desc stream (some s) only = some out →
       ∀ d ∈ out, ¬ compare_namesT env lss d s < 0 ∧
         (only = true → compare_namesT env lss d s = 0)) := by
  refine ⟨by decide, by decide, ?_⟩
  intro env lss desc stream s only out hrd d hd
  have hkeep : keepEntry env lss (some s) only d = true := by
    cases desc with
    | NONEXISTENT =>
        simp [dir_read] at hrd
        rw [hrd] at hd
        simp at hd
    | UNOPENED =>
        by_cases h1 : stream.openat_ok
        · by_cases h2 : stream.fdopendir_ok
          · by_cases h3 : stream.readdir_error
            · simp [dir_read, h1, h2, h3] at hrd
            · simp [dir_read, h1, h2, h3] at hrd
              rw [← hrd] at hd
              exact (List.mem_filter.mp hd).2
          · simp [dir_read, h1, h2] at hrd
        · simp [dir_read, h1] at hrd
    | OPENED fd =>
        by_cases h2 : stream.fdopendir_ok
        · by_cases h3 : stream.readdir_error
          · simp [dir_read, h2, h3] at hrd
          · simp [dir_read, h2, h3] at hrd
            rw [← hrd] at hd
            exact (List.mem_filter.mp hd).2
        · simp [dir_read, h2] at hrd
  simp only [keepEntry, Bool.and_eq_true] at hkeep
  obtain ⟨⟨-, hcur⟩, -⟩ := hkeep
  constructor
  · intro hlt
    simp [hlt] at hcur
  · intro honly
    by_contra hne
    simp [honly, hne] at hcur

/-- Witness for dir_read_restart_cursor: the general cursor property at a
concrete enumeration. -/
theorem dir_read_restart_cursor_witness :
    ¬ compare_namesT envPlain false "z" "m" < 0 :=
  (dir_read_restart_cursor.2.2 envPlain false Desc.UNOPENED streamAMZ "m"
      false ["m", "z"] (by decide) "z" (by decide)).1

theorem scanMatchCont_no_exact (file first : String) :
    ∀ l : List String, (∀ p ∈ l, file_name_cmp p file ≠ 0) →
      scanMatchCont file first l = first := by
  intro l
  induction l with
  | nil => intro _; rfl
  | cons p ps ih =>
      intro hno
      have hp : file_name_cmp p file ≠ 0 := hno p (by simp)
      simp only [scanMatchCont, if_neg hp]
      exact ih (fun q hq => hno q (by simp [hq]))

theorem scanMatchCont_exact (file first : String) :
    ∀ l : List String, (∃ p ∈ l, file_name_cmp p file = 0) →
      scanMatchCont file first l = file := by
  intro l
  induction l with
  | nil => intro h; simp at h
  | cons p ps ih =>
      intro hex
      by_cases hp : file_name_cmp p file = 0
      · simp only [scanMatchCont, if_pos hp]
        exact file_name_cmp_eq_zero.mp hp
      · simp only [scanMatchCont, if_neg hp]
        apply ih
        obtain ⟨q, hq, hq0⟩ := hex
        rcases List.mem_cons.mp hq with h1 | h1
        · exact absurd (h1 ▸ hq0) hp
        · exact ⟨q, h1, hq0⟩

theorem scanMatch_exact (file : String) (l : List String)
    (hex : ∃ p ∈ l, file_name_cmp p file = 0) :
    scanMatch file l = file := by
  cases l with
  | nil => simp at hex
  | cons p ps =>
      by_cases hp : file_name_cmp p file = 0
      · simp only [scanMatch, if_pos hp]
        exact file_name_cmp_eq_zero.mp hp
      · simp only [scanMatch, if_neg hp]
        apply scanMatchCont_exact
        obtain ⟨q, hq, hq0⟩ := hex
        rcases List.mem_cons.mp hq with h1 | h1
        · exact absurd (h1 ▸ hq0) hp
        · exact ⟨q, h1, hq0⟩

theorem scanMatch_no_exact (file : String) (l : List String)
    (hno : ∀ p ∈ l, file_name_cmp p file ≠ 0) :
    scanMatch file l = l.headD file := by
  cases l with
  | nil => rfl
  | cons p ps =>
      have hp : file_name_cmp p file ≠ 0 := hno p (by simp)
      simp only [scanMatch, if_neg hp, List.headD_cons]
      exact scanMatchCont_no_exact file p ps (fun q hq => hno q (by simp [hq]))

theorem dir_read_member_keep {env : Env} {lss : Bool} {desc : Desc}
    {stream : DirStream} {startfile : Option String} {so : Bool}
    {out : List String} (hrd : dir_read env lss desc stream startfile so = some out) :
    ∀ d ∈ out, keepEntry env lss startfile so d = true := by
  intro d hd
  cases desc with
  | NONEXISTENT =>
      simp [dir_read] at hrd
      rw [hrd] at hd
      simp at hd
  | UNOPENED =>
      by_cases h1 : stream.openat_ok
      · by_cases h2 : stream.fdopendir_ok
        · by_cases h3 : stream.readdir_error
          · simp [dir_read, h1, h2, h3] at hrd
          · simp [dir_read, h1, h2, h3] at hrd
            rw [← hrd] at hd
            exact (List.mem_filter.mp hd).2
        · simp [dir_read, h1, h2] at hrd
      · simp [dir_read, h1] at hrd
  | OPENED fd =>
      by_cases h2 : stream.fdopendir_ok
      · by_cases h3 : stream.readdir_error
        · simp [dir_read, h2, h3] at hrd
        · simp [dir_read, h2, h3] at hrd
          rw [← hrd] at hd
          exact (List.mem_filter.mp hd).2
      · simp [dir_read, h2] at hrd

/-- Claim C9 (confirmed): find_dir_file_pathname returns the verbatim join
of directory and target when case-folding is disabled, touching no
filesystem state (the stream is irrelevant); with case-folding enabled it
reads exactly the run of entries comparing equal to the target, joins an
exact byte-wise match when one exists in that run, and otherwise joins the
first candidate found. -/
theorem find_dir_file_pathname_cases (env : Env) (lss : Bool)
    (dir : FileData) (stream : DirStream) (file : String) :
    (env.ignore_file_name_case = false →
       find_dir_file_pathname env lss dir stream file
         = file_name_concat dir.name file) ∧
    (∀ names, env.ignore_file_name_case = true →
       dir_read env lss dir.desc stream (some file) true = some names →
       (∀ p ∈ names, compare_namesT env lss p file = 0) ∧
       ((∃ p ∈ names, file_name_cmp p file = 0) →
          find_dir_file_pathname env lss dir stream file
            = file_name_concat dir.name file) ∧
       ((∀ p ∈ names, file_name_cmp p file ≠ 0) →
          find_dir_file_pathname env lss dir stream file
            = file_name_concat dir.name (names.headD file))) := by
  constructor
  · intro hic
    simp [find_dir_file_pathname, hic]
  · intro names hic hrd
    refine ⟨?_, ?_, ?_⟩
    · intro p hp
      have hk := dir_read_member_keep hrd p hp
      simp only [keepEntry, Bool.and_eq_true] at hk
      obtain ⟨⟨-, hcur⟩, -⟩ := hk
      by_contra hne
      by_cases hlt : compare_namesT env lss p file < 0
      · simp [hlt] at hcur
      · simp [hlt, hne] at hcur
    · intro hex
      simp [find_dir_file_pathname, hic, hrd, scanMatch_exact file names hex]
    · intro hno
      simp [find_dir_file_pathname, hic, hrd, scanMatch_no_exact file names hno]

/-- Witness for find_dir_file_pathname_cases: both the disabled case and
the enabled case at concrete inputs (entry "A" matched for target "a"
under folding, no exact byte match, so the first candidate is joined). -/
theorem find_dir_file_pathname_cases_witness :
    find_dir_file_pathname envPlain false
        ⟨"d", Desc.OPENED 3, ⟨true, 1, 1, none⟩⟩
        ⟨true, true, ["A"], false⟩ "a"
      = file_name_concat "d" "a" ∧
    find_dir_file_pathname envFold true
        ⟨"d", Desc.OPENED 3, ⟨true, 1, 1, none⟩⟩
        ⟨true, true, ["A"], false⟩ "a"
      = file_name_concat "d" "A" :=
  ⟨(find_dir_file_pathname_cases envPlain false _ _ "a").1 rfl,
   (find_dir_file_pathname_cases envFold true
       ⟨"d", Desc.OPENED 3, ⟨true, 1, 1, none⟩⟩
       ⟨true, true, ["A"], false⟩ "a").2 ["A"] rfl (by decide) |>.2.2
     (by decide)⟩

/-- File identity that is unavailable (stat of a nonexistent file). -/
def identUnknown : FileId := ⟨false, 0, 0, none⟩

/-- A known identity: device 1, inode 7. -/
def identA : FileId := ⟨true, 1, 7, none⟩

/-- A second, distinct known identity: device 2, inode 9. -/
def identB : FileId := ⟨true, 2, 9, none⟩

/-- A comparison node whose side 0 is marked nonexistent (and does not
loop) while side 1 revisits the identity of its ancestor on side 1. -/
def cmpLoopEx : CompNode :=
  { file := fun i => if i then ⟨"d1", Desc.OPENED 3, identA⟩
                     else ⟨"d0", Desc.NONEXISTENT, identUnknown⟩
    parents := [fun i => if i then ⟨"p1", Desc.OPENED 4, identA⟩
                         else ⟨"p0", Desc.OPENED 5, identB⟩] }

/-- Claim C2 (counterexample): diff_dirs emits the recursive-loop
diagnostic (naming side 1) and returns EXIT_TROUBLE on a node whose side 0
does not loop at all (it is merely marked nonexistent), so the diagnostic
does not fire only when both sides loop. -/
theorem diff_dirs_loop_gate_counterexample :
    dir_loop cmpLoopEx false = false ∧
    dir_loop cmpLoopEx true = true ∧
    (diff_dirs envPlain gFalse cmpLoopEx (fun _ => streamAMZ) handler0).2.loopDiag
      = some "d1" ∧
    (diff_dirs envPlain gFalse cmpLoopEx (fun _ => streamAMZ) handler0).2.val
      = EXIT_TROUBLE := by
  refine ⟨by decide, by decide, by decide, by decide⟩

/-- Claim C2 (corrected): diff_dirs emits the fatal recursive-loop
diagnostic and returns EXIT_TROUBLE with no pairs if and only if each of
the two sides is either marked nonexistent or would loop per dir_loop (a
nonexistent side counts the same as a looping one); the diagnostic names
side 1 when side 0 is nonexistent and side 0 otherwise.  When the gate does
not fire (in particular when only one side loops and the other is a real,
non-looping directory) no loop diagnostic is emitted and the comparison
proceeds. -/
theorem diff_dirs_loop_gate (env : Env) (g : GState) (cmp : CompNode)
    (streams : Bool → DirStream) (h : Handler) :
    ((diff_dirs env g cmp streams h).2.loopDiag.isSome = true ↔
       ((cmp.file false).desc = Desc.NONEXISTENT ∨ dir_loop cmp false = true) ∧
       ((cmp.file true).desc = Desc.NONEXISTENT ∨ dir_loop cmp true = true)) ∧
    (((cmp.file false).desc = Desc.NONEXISTENT ∨ dir_loop cmp false = true) ∧
     ((cmp.file true).desc = Desc.NONEXISTENT ∨ dir_loop cmp true = true) →
       diff_dirs env g cmp streams h
         = (g, { val := EXIT_TROUBLE
                 loopDiag := some (if (cmp.file false).desc = Desc.NONEXISTENT
                                   then (cmp.file true).name
                                   else (cmp.file false).name)
                 readDiags := []
                 pairs := [] })) := by
  by_cases hgate :
      ((cmp.file false).desc = Desc.NONEXISTENT ∨ dir_loop cmp false = true) ∧
      ((cmp.file true).desc = Desc.NONEXISTENT ∨ dir_loop cmp true = true)
  · constructor
    · simp [diff_dirs, hgate]
    · intro _
      simp [diff_dirs, hgate]
  · constructor
    · simp only [diff_dirs, if_neg hgate]
      cases hr0 : dir_read env g.lss (cmp.file false).desc (streams false)
          (if cmp.parents = [] then env.starting_file else none) false with
      | none =>
          cases hr1 : dir_read env g.lss (cmp.file true).desc (streams true)
              (if cmp.parents = [] then env.starting_file else none) false with
          | none => simp [hr0, hr1, hgate]
          | some n1 => simp [hr0, hr1, hgate]
      | some n0 =>
          cases hr1 : dir_read env g.lss (cmp.file true).desc (streams true)
              (if cmp.parents = [] then env.starting_file else none) false with
          | none => simp [hr0, hr1, hgate]
          | some n1 => simp [hr0, hr1, hgate]
    · intro hg
      exact absurd hg hgate

/-- Witness for diff_dirs_loop_gate: the gate branch at the
counterexample node. -/
theorem diff_dirs_loop_gate_witness :
    diff_dirs envPlain gFalse cmpLoopEx (fun _ => streamAMZ) handler0
      = (gFalse, { val := EXIT_TROUBLE
                   loopDiag := some "d1"
                   readDiags := []
                   pairs := [] }) := by
  have hg := (diff_dirs_loop_gate envPlain gFalse cmpLoopEx
      (fun _ => streamAMZ) handler0).2 (by decide)
  rw [hg]
  refine congrArg _ ?_
  refine congrArg _ ?_
  decide

theorem compare_names_none_state {env : Env} {g g1 : GState} {a b : String}
    (h : compare_names env g a b = (g1, none)) :
    g1.collDiags = g.collDiags + 1 ∧ g1.lss = g.lss := by
  have hl := compare_names_none_lss h
  rw [compare_names, if_pos hl] at h
  unfold compare_collated at h
  cases hc : collFor env a b with
  | some r => rw [hc] at h; simp at h
  | none =>
      rw [hc] at h
      simp at h
      rw [← h]
      exact ⟨rfl, rfl⟩

theorem tbGo_not_jumped_state {env : Env} {gname : String} :
    ∀ {g g2 : GState} {t : List String} {res : TB},
      tbGo env gname g t = (g2, res) → res ≠ TB.jumped → g2 = g := by
  intro g g2 t
  induction t generalizing g g2 with
  | nil =>
      intro res h hne
      simp [tbGo] at h
      exact h.1.symm
  | cons x xs ih =>
      intro res h hne
      rw [tbGo] at h
      cases hc : compare_names env g x gname with
      | mk g1 r =>
          cases r with
          | none =>
              rw [hc] at h
              simp at h
              exact absurd h.2.symm hne
          | some c0 =>
              rw [hc] at h
              simp only at h
              have hg1 : g1 = g := compare_names_some_state hc
              by_cases h0 : c0 = 0
              · rw [if_pos h0] at h
                by_cases h1 : file_name_cmp x gname < 0
                · rw [if_pos h1] at h
                  cases htb : tbGo env gname g1 xs with
                  | mk g3 tb =>
                      cases tb with
                      | jumped =>
                          rw [htb] at h
                          simp at h
                          exact absurd h.2.symm hne
                      | noRot =>
                          rw [htb] at h
                          simp at h
                          rw [← h.1]
                          exact (ih htb (by simp)).trans hg1
                      | rotated nt2 =>
                          rw [htb] at h
                          simp at h
                          rw [← h.1]
                          exact (ih htb (by simp)).trans hg1
                · rw [if_neg h1] at h
                  by_cases h2 : file_name_cmp x gname = 0
                  · rw [if_pos h2] at h
                    simp at h
                    rw [← h.1]
                    exact hg1
                  · rw [if_neg h2] at h
                    simp at h
                    rw [← h.1]
                    exact hg1
              · rw [if_neg h0] at h
                simp at h
                rw [← h.1]
                exact hg1

theorem tbGo_jumped_facts {env : Env} {gname : String} :
    ∀ {g g2 : GState} {t : List String},
      tbGo env gname g t = (g2, TB.jumped) →
      g2.collDiags = g.collDiags + 1 ∧ g2.lss = g.lss ∧
      ∃ x ∈ t, (compare_names env g x gname).2 = none := by
  intro g g2 t
  induction t generalizing g g2 with
  | nil => intro h; simp [tbGo] at h
  | cons x xs ih =>
      intro h
      rw [tbGo] at h
      cases hc : compare_names env g x gname with
      | mk g1 r =>
          cases r with
          | none =>
              rw [hc] at h
              simp at h
              obtain ⟨hs, hl⟩ := compare_names_none_state hc
              refine ⟨?_, ?_, x, by simp, by simp [hc]⟩
              · rw [← h]; exact hs
              · rw [← h]; exact hl
          | some c0 =>
              rw [hc] at h
              simp only at h
              have hg1 : g1 = g := compare_names_some_state hc
              by_cases h0 : c0 = 0
              · rw [if_pos h0] at h
                by_cases h1 : file_name_cmp x gname < 0
                · rw [if_pos h1] at h
                  cases htb : tbGo env gname g1 xs with
                  | mk g3 tb =>
                      cases tb with
                      | jumped =>
                          rw [htb] at h
                          simp at h
                          obtain ⟨hd, hl, y, hy, hcy⟩ := ih (htb.trans (by rw [h]))
                          rw [hg1] at hd hl hcy
                          exact ⟨hd, hl, y, by simp [hy], hcy⟩
                      | noRot => rw [htb] at h; simp at h
                      | rotated nt2 => rw [htb] at h; simp at h
                · rw [if_neg h1] at h
                  by_cases h2 : file_name_cmp x gname = 0
                  · rw [if_pos h2] at h; simp at h
                  · rw [if_neg h2] at h; simp at h
              · rw [if_neg h0] at h; simp at h

/-- One if the locale-specific-sorting flag is set, else zero: the number
of collation diagnostics the current diff_dirs frame may still emit. -/
def lssBit (b : Bool) : Nat := if b then 1 else 0

theorem mergeGo_nil_nil (env : Env) (h : Handler) (g : GState) :
    mergeGo env h g [] [] = (g, []) := by
  simp [mergeGo]

theorem mergeGo_nil_cons (env : Env) (h : Handler) (g : GState)
    (b : String) (rs : List String) :
    mergeGo env h g [] (b :: rs)
      = ((mergeGo env h (h g none (some b)).1 [] rs).1,
         ((none, some b), (h g none (some b)).2)
           :: (mergeGo env h (h g none (some b)).1 [] rs).2) := by
  simp [mergeGo]

theorem mergeGo_cons_nil (env : Env) (h : Handler) (g : GState)
    (a : String) (ls : List String) :
    mergeGo env h g (a :: ls) []
      = ((mergeGo env h (h g (some a) none).1 ls []).1,
         ((some a, none), (h g (some a) none).2)
           :: (mergeGo env h (h g (some a) none).1 ls []).2) := by
  simp [mergeGo]

theorem mergeGo_step_jump {env : Env} {h : Handler} {g g1 : GState}
    {a b : String} {ls rs : List String}
    (hc : compare_names env g a b = (g1, none)) :
    mergeGo env h g (a :: ls) (b :: rs)
      = mergeGo env h (jumpState g1) (rawSort (a :: ls)) (rawSort (b :: rs)) := by
  simp only [mergeGo]
  split
  · rename_i g2 heq
    rw [hc] at heq
    simp at heq
    rw [heq]
  · rename_i g2 d heq
    rw [hc] at heq
    simp at heq

theorem mergeGo_step_tbL_jump {env : Env} {h : Handler} {g g1 g2 : GState}
    {a b : String} {ls rs : List String} {d : Int}
    (hc : compare_names env g a b = (g1, some d))
    (hg : d = 0 ∧ env.ignore_file_name_case = true ∧ file_name_cmp a b ≠ 0)
    (hraw : file_name_cmp a b < 0)
    (htb : tbGo env b g1 ls = (g2, TB.jumped)) :
    mergeGo env h g (a :: ls) (b :: rs)
      = mergeGo env h (jumpState g2) (rawSort (a :: ls)) (rawSort (b :: rs)) := by
  simp only [mergeGo]
  split
  · rename_i g3 heq
    rw [hc] at heq
    simp at heq
  · rename_i g3 d3 heq
    rw [hc] at heq
    simp at heq
    obtain ⟨h1, h2⟩ := heq
    subst h1 h2
    rw [if_pos hg, if_pos hraw]
    split
    · rename_i g4 htb2
      rw [htb] at htb2
      simp at htb2
      rw [htb2]
    · rename_i g4 htb2
      rw [htb] at htb2
      simp at htb2
    · rename_i g4 nt htb2
      rw [htb] at htb2
      simp at htb2

theorem mergeGo_step_tbL_noRot {env : Env} {h : Handler} {g g1 g2 : GState}
    {a b : String} {ls rs : List String} {d : Int}
    (hc : compare_names env g a b = (g1, some d))
    (hg : d = 0 ∧ env.ignore_file_name_case = true ∧ file_name_cmp a b ≠ 0)
    (hraw : file_name_cmp a b < 0)
    (htb : tbGo env b g1 ls = (g2, TB.noRot)) :
    mergeGo env h g (a :: ls) (b :: rs)
      = ((mergeGo env h (h g2 (some a) (some b)).1 ls rs).1,
         ((some a, some b), (h g2 (some a) (some b)).2)
           :: (mergeGo env h (h g2 (some a) (some b)).1 ls rs).2) := by
  simp only [mergeGo]
  split
  · rename_i g3 heq
    rw [hc] at heq
    simp at heq
  · rename_i g3 d3 heq
    rw [hc] at heq
    simp at heq
    obtain ⟨h1, h2⟩ := heq
    subst h1 h2
    rw [if_pos hg, if_pos hraw]
    split
    · rename_i g4 htb2
      rw [htb] at htb2
      simp at htb2
    · rename_i g4 htb2
      rw [htb] at htb2
      simp at htb2
      rw [htb2]
    · rename_i g4 nt htb2
      rw [htb] at htb2
      simp at htb2

theorem mergeGo_step_tbL_rot {env : Env} {h : Handler} {g g1 g2 : GState}
    {a b : String} {ls rs nt : List String} {d : Int}
    (hc : compare_names env g a b = (g1, some d))
    (hg : d = 0 ∧ env.ignore_file_name_case = true ∧ file_name_cmp a b ≠ 0)
    (hraw : file_name_cmp a b < 0)
    (htb : tbGo env b g1 ls = (g2, TB.rotated nt)) :
    mergeGo env h g (a :: ls) (b :: rs)
      = ((mergeGo env h (h g2 (some b) (some b)).1 (a :: nt) rs).1,
         ((some b, some b), (h g2 (some b) (some b)).2)
           :: (mergeGo env h (h g2 (some b) (some b)).1 (a :: nt) rs).2) := by
  simp only [mergeGo]
  split
  · rename_i g3 heq
    rw [hc] at heq
    simp at heq
  · rename_i g3 d3 heq
    rw [hc] at heq
    simp at heq
    obtain ⟨h1, h2⟩ := heq
    subst h1 h2
    rw [if_pos hg, if_pos hraw]
    split
    · rename_i g4 htb2
      rw [htb] at htb2
      simp at htb2
    · rename_i g4 htb2
      rw [htb] at htb2
      simp at htb2
    · rename_i g4 nt2 htb2
      rw [htb] at htb2
      simp at htb2
      rw [htb2.1, htb2.2]

theorem mergeGo_step_tbR_jump {env : Env} {h : Handler} {g g1 g2 : GState}
    {a b : String} {ls rs : List String} {d : Int}
    (hc : compare_names env g a b = (g1, some d))
    (hg : d = 0 ∧ env.ignore_file_name_case = true ∧ file_name_cmp a b ≠ 0)
    (hraw : ¬ file_name_cmp a b < 0)
    (htb : tbGo env a g1 rs = (g2, TB.jumped)) :
    mergeGo env h g (a :: ls) (b :: rs)
      = mergeGo env h (jumpState g2) (rawSort (a :: ls)) (rawSort (b :: rs)) := by
  simp only [mergeGo]
  split
  · rename_i g3 heq
    rw [hc] at heq
    simp at heq
  · rename_i g3 d3 heq
    rw [hc] at heq
    simp at heq
    obtain ⟨h1, h2⟩ := heq
    subst h1 h2
    rw [if_pos hg, if_neg hraw]
    split
    · rename_i g4 htb2
      rw [htb] at htb2
      simp at htb2
      rw [htb2]
    · rename_i g4 htb2
      rw [htb] at htb2
      simp at htb2
    · rename_i g4 nt htb2
      rw [htb] at htb2
      simp at htb2

theorem mergeGo_step_tbR_noRot {env : Env} {h : Handler} {g g1 g2 : GState}
    {a b : String} {ls rs : List String} {d : Int}
    (hc : compare_names env g a b = (g1, some d))
    (hg : d = 0 ∧ env.ignore_file_name_case = true ∧ file_name_cmp a b ≠ 0)
    (hraw : ¬ file_name_cmp a b < 0)
    (htb : tbGo env a g1 rs = (g2, TB.noRot)) :
    mergeGo env h g (a :: ls) (b :: rs)
      = ((mergeGo env h (h g2 (some a) (some b)).1 ls rs).1,
         ((some a, some b), (h g2 (some a) (some b)).2)
           :: (mergeGo env h (h g2 (some a) (some b)).1 ls rs).2) := by
  simp only [mergeGo]
  split
  · rename_i g3 heq
    rw [hc] at heq
    simp at heq
  · rename_i g3 d3 heq
    rw [hc] at heq
    simp at heq
    obtain ⟨h1, h2⟩ := heq
    subst h1 h2
    rw [if_pos hg, if_neg hraw]
    split
    · rename_i g4 htb2
      rw [htb] at htb2
      simp at htb2
    · rename_i g4 htb2
      rw [htb] at htb2
      simp at htb2
      rw [htb2]
    · rename_i g4 nt htb2
      rw [htb] at htb2
      simp at htb2

theorem mergeGo_step_tbR_rot {env : Env} {h : Handler} {g g1 g2 : GState}
    {a b : String} {ls rs nt : List String} {d : Int}
    (hc : compare_names env g a b = (g1, some d))
    (hg : d = 0 ∧ env.ignore_file_name_case = true ∧ file_name_cmp a b ≠ 0)
    (hraw : ¬ file_name_cmp a b < 0)
    (htb : tbGo env a g1 rs = (g2, TB.rotated nt)) :
    mergeGo env h g (a :: ls) (b :: rs)
      = ((mergeGo env h (h g2 (some a) (some a)).1 ls (b :: nt)).1,
         ((some a, some a), (h g2 (some a) (some a)).2)
           :: (mergeGo env h (h g2 (some a) (some a)).1 ls (b :: nt)).2) := by
  simp only [mergeGo]
  split
  · rename_i g3 heq
    rw [hc] at heq
    simp at heq
  · rename_i g3 d3 heq
    rw [hc] at heq
    simp at heq
    obtain ⟨h1, h2⟩ := heq
    subst h1 h2
    rw [if_pos hg, if_neg hraw]
    split
    · rename_i g4 htb2
      rw [htb] at htb2
      simp at htb2
    · rename_i g4 htb2
      rw [htb] at htb2
      simp at htb2
    · rename_i g4 nt2 htb2
      rw [htb] at htb2
      simp at htb2
      rw [htb2.1, htb2.2]

theorem mergeGo_step_lt {env : Env} {h : Handler} {g g1 : GState}
    {a b : String} {ls rs : List String} {d : Int}
    (hc : compare_names env g a b = (g1, some d))
    (hng : ¬(d = 0 ∧ env.ignore_file_name_case = true ∧ file_name_cmp a b ≠ 0))
    (hdlt : d < 0) :
    mergeGo env h g (a :: ls) (b :: rs)
      = ((mergeGo env h (h g1 (some a) none).1 ls (b :: rs)).1,
         ((some a, none), (h g1 (some a) none).2)
           :: (mergeGo env h (h g1 (some a) none).1 ls (b :: rs)).2) := by
  simp only [mergeGo]
  split
  · rename_i g3 heq
    rw [hc] at heq
    simp at heq
  · rename_i g3 d3 heq
    rw [hc] at heq
    simp at heq
    obtain ⟨h1, h2⟩ := heq
    subst h1 h2
    rw [if_neg hng, if_pos hdlt]

theorem mergeGo_step_gt {env : Env} {h : Handler} {g g1 : GState}
    {a b : String} {ls rs : List String} {d : Int}
    (hc : compare_names env g a b = (g1, some d))
    (hng : ¬(d = 0 ∧ env.ignore_file_name_case = true ∧ file_name_cmp a b ≠ 0))
    (hdgt : 0 < d) :
    mergeGo env h g (a :: ls) (b :: rs)
      = ((mergeGo env h (h g1 none (some b)).1 (a :: ls) rs).1,
         ((none, some b), (h g1 none (some b)).2)
           :: (mergeGo env h (h g1 none (some b)).1 (a :: ls) rs).2) := by
  simp only [mergeGo]
  split
  · rename_i g3 heq
    rw [hc] at heq
    simp at heq
  · rename_i g3 d3 heq
    rw [hc] at heq
    simp at heq
    obtain ⟨h1, h2⟩ := heq
    subst h1 h2
    rw [if_neg hng, if_neg (by omega : ¬ d < 0), if_pos hdgt]

theorem mergeGo_step_eq {env : Env} {h : Handler} {g g1 : GState}
    {a b : String} {ls rs : List String} {d : Int}
    (hc : compare_names env g a b = (g1, some d))
    (hng : ¬(d = 0 ∧ env.ignore_file_name_case = true ∧ file_name_cmp a b ≠ 0))
    (hdeq : d = 0) :
    mergeGo env h g (a :: ls) (b :: rs)
      = ((mergeGo env h (h g1 (some a) (some b)).1 ls rs).1,
         ((some a, some b), (h g1 (some a) (some b)).2)
           :: (mergeGo env h (h g1 (some a) (some b)).1 ls rs).2) := by
  simp only [mergeGo]
  split
  · rename_i g3 heq
    rw [hc] at heq
    simp at heq
  · rename_i g3 d3 heq
    rw [hc] at heq
    simp at heq
    obtain ⟨h1, h2⟩ := heq
    subst h1 h2
    rw [if_neg hng, if_neg (by omega : ¬ d < 0), if_neg (by omega : ¬ 0 < d)]

/-- The merge loop preserves the sum of emitted collation diagnostics and
the remaining diagnostic budget of the frame (one while locale-specific
sorting is still active, zero after it has been cleared), provided the
handler leaves the globals alone.  Hence one frame emits at most one
collation diagnostic, exactly when it ends with the flag cleared. -/
theorem mergeGo_diag_invariant (env : Env) (h : Handler)
    (hh : ∀ (g2 : GState) (a b : Option String), (h g2 a b).1 = g2) :
    ∀ (g : GState) (l r : List String),
      (mergeGo env h g l r).1.collDiags + lssBit (mergeGo env h g l r).1.lss
        = g.collDiags + lssBit g.lss := by
  intro g l r
  induction g, l, r using mergeGo.induct env h with
  | case1 g => simp [mergeGo_nil_nil]
  | case2 g b rs hr ih =>
      rw [mergeGo_nil_cons]
      have ih2 : (mergeGo env h (h g none (some b)).1 [] rs).1.collDiags
            + lssBit (mergeGo env h (h g none (some b)).1 [] rs).1.lss
          = (h g none (some b)).1.collDiags
            + lssBit (h g none (some b)).1.lss := ih
      rw [hh] at ih2
      simpa [hh] using ih2
  | case3 g a ls hr ih =>
      rw [mergeGo_cons_nil]
      have ih2 : (mergeGo env h (h g (some a) none).1 ls []).1.collDiags
            + lssBit (mergeGo env h (h g (some a) none).1 ls []).1.lss
          = (h g (some a) none).1.collDiags
            + lssBit (h g (some a) none).1.lss := ih
      rw [hh] at ih2
      simpa [hh] using ih2
  | case4 g a ls b rs g1 hc ih =>
      rw [mergeGo_step_jump hc, ih]
      obtain ⟨hd, -⟩ := compare_names_none_state hc
      have hlss := compare_names_none_lss hc
      simp [jumpState, lssBit, hd, hlss]
  | case5 g a ls b rs g1 d hc hg hraw g2 htb ih =>
      rw [mergeGo_step_tbL_jump hc hg hraw htb, ih]
      obtain ⟨hd, -, -⟩ := tbGo_jumped_facts htb
      have hg1 : g1 = g := compare_names_some_state hc
      have hlss : g.lss = true := hg1 ▸ tbGo_jumped_lss htb
      rw [hg1] at hd
      simp [jumpState, lssBit, hd, hlss]
  | case6 g a ls b rs g1 d hc hg hraw g2 htb hr ih =>
      rw [mergeGo_step_tbL_noRot hc hg hraw htb]
      have hst : g2 = g :=
        (tbGo_not_jumped_state htb (by simp)).trans (compare_names_some_state hc)
      have ih2 : (mergeGo env h (h g2 (some a) (some b)).1 ls rs).1.collDiags
            + lssBit (mergeGo env h (h g2 (some a) (some b)).1 ls rs).1.lss
          = (h g2 (some a) (some b)).1.collDiags
            + lssBit (h g2 (some a) (some b)).1.lss := ih
      rw [hh, hst] at ih2
      simpa [hh, hst] using ih2
  | case7 g a ls b rs g1 d hc hg hraw g2 nt htb hr ih =>
      rw [mergeGo_step_tbL_rot hc hg hraw htb]
      have hst : g2 = g :=
        (tbGo_not_jumped_state htb (by simp)).trans (compare_names_some_state hc)
      have ih2 : (mergeGo env h (h g2 (some b) (some b)).1 (a :: nt) rs).1.collDiags
            + lssBit (mergeGo env h (h g2 (some b) (some b)).1 (a :: nt) rs).1.lss
          = (h g2 (some b) (some b)).1.collDiags
            + lssBit (h g2 (some b) (some b)).1.lss := ih
      rw [hh, hst] at ih2
      simpa [hh, hst] using ih2
  | case8 g a ls b rs g1 d hc hg hraw g2 htb ih =>
      rw [mergeGo_step_tbR_jump hc hg hraw htb, ih]
      obtain ⟨hd, -, -⟩ := tbGo_jumped_facts htb
      have hg1 : g1 = g := compare_names_some_state hc
      have hlss : g.lss = true := hg1 ▸ tbGo_jumped_lss htb
      rw [hg1] at hd
      simp [jumpState, lssBit, hd, hlss]
  | case9 g a ls b rs g1 d hc hg hraw g2 htb hr ih =>
      rw [mergeGo_step_tbR_noRot hc hg hraw htb]
      have hst : g2 = g :=
        (tbGo_not_jumped_state htb (by simp)).trans (compare_names_some_state hc)
      have ih2 : (mergeGo env h (h g2 (some a) (some b)).1 ls rs).1.collDiags
            + lssBit (mergeGo env h (h g2 (some a) (some b)).1 ls rs).1.lss
          = (h g2 (some a) (some b)).1.collDiags
            + lssBit (h g2 (some a) (some b)).1.lss := ih
      rw [hh, hst] at ih2
      simpa [hh, hst] using ih2
  | case10 g a ls b rs g1 d hc hg hraw g2 nt htb hr ih =>
      rw [mergeGo_step_tbR_rot hc hg hraw htb]
      have hst : g2 = g :=
        (tbGo_not_jumped_state htb (by simp)).trans (compare_names_some_state hc)
      have ih2 : (mergeGo env h (h g2 (some a) (some a)).1 ls (b :: nt)).1.collDiags
            + lssBit (mergeGo env h (h g2 (some a) (some a)).1 ls (b :: nt)).1.lss
          = (h g2 (some a) (some a)).1.collDiags
            + lssBit (h g2 (some a) (some a)).1.lss := ih
      rw [hh, hst] at ih2
      simpa [hh, hst] using ih2
  | case11 g a ls b rs g1 d hc hng hdlt hr ih =>
      rw [mergeGo_step_lt hc hng hdlt]
      have hst : g1 = g := compare_names_some_state hc
      have ih2 : (mergeGo env h (h g1 (some a) none).1 ls (b :: rs)).1.collDiags
            + lssBit (mergeGo env h (h g1 (some a) none).1 ls (b :: rs)).1.lss
          = (h g1 (some a) none).1.collDiags
            + lssBit (h g1 (some a) none).1.lss := ih
      rw [hh, hst] at ih2
      simpa [hh, hst] using ih2
  | case12 g a ls b rs g1 d hc hng hndlt hdgt hr ih =>
      rw [mergeGo_step_gt hc hng hdgt]
      have hst : g1 = g := compare_names_some_state hc
      have ih2 : (mergeGo env h (h g1 none (some b)).1 (a :: ls) rs).1.collDiags
            + lssBit (mergeGo env h (h g1 none (some b)).1 (a :: ls) rs).1.lss
          = (h g1 none (some b)).1.collDiags
            + lssBit (h g1 none (some b)).1.lss := ih
      rw [hh, hst] at ih2
      simpa [hh, hst] using ih2
  | case13 g a ls b rs g1 d hc hng hndlt hndgt hr ih =>
      rw [mergeGo_step_eq hc hng (by omega)]
      have hst : g1 = g := compare_names_some_state hc
      have ih2 : (mergeGo env h (h g1 (some a) (some b)).1 ls rs).1.collDiags
            + lssBit (mergeGo env h (h g1 (some a) (some b)).1 ls rs).1.lss
          = (h g1 (some a) (some b)).1.collDiags
            + lssBit (h g1 (some a) (some b)).1.lss := ih
      rw [hh, hst] at ih2
      simpa [hh, hst] using ih2

/-- Under a handler that leaves the globals alone and collation oracles
that do not fail on the names involved, the merge loop keeps the global
state fixed, delivers the names of each side in exactly one pair each (as
a permutation, the tie-break rotation only reorders a run), and invokes
the handler at most once per name. -/
theorem mergeGo_perm_aux (env : Env) (h : Handler) (g0 : GState)
    (S : List String)
    (hh : ∀ (g2 : GState) (a b : Option String), (h g2 a b).1 = g2)
    (hcS : ∀ a b : String, a ∈ S → b ∈ S →
      (compare_names env g0 a b).2.isSome = true) :
    ∀ (g : GState) (l r : List String), g = g0 →
      (∀ x ∈ l, x ∈ S) → (∀ x ∈ r, x ∈ S) →
      (mergeGo env h g l r).1 = g0 ∧
      ((mergeGo env h g l r).2.filterMap (fun pv => pv.1.1)).Perm l ∧
      ((mergeGo env h g l r).2.filterMap (fun pv => pv.1.2)).Perm r ∧
      (mergeGo env h g l r).2.length ≤ l.length + r.length := by
  intro g l r
  induction g, l, r using mergeGo.induct env h with
  | case1 g =>
      intro hg _ _
      simp [mergeGo_nil_nil, hg]
  | case2 g b rs hr ih =>
      intro hg hl hr2
      subst hg
      have hk : (h g none (some b)).1 = g := hh g none (some b)
      have hr1 : hr.1 = g := hk
      rw [hr1] at ih
      obtain ⟨ih1, ih2, ih3, ih4⟩ :=
        ih rfl (by simp) (fun x hx => hr2 x (by simp [hx]))
      rw [mergeGo_nil_cons, hk]
      refine ⟨by simpa using ih1, by simpa using ih2, ?_, ?_⟩
      · simpa using ih3.cons b
      · simp only [List.length_cons, List.length_nil] at ih4 ⊢
        omega
  | case3 g a ls hr ih =>
      intro hg hl hr2
      subst hg
      have hk : (h g (some a) none).1 = g := hh g (some a) none
      have hr1 : hr.1 = g := hk
      rw [hr1] at ih
      obtain ⟨ih1, ih2, ih3, ih4⟩ :=
        ih rfl (fun x hx => hl x (by simp [hx])) (by simp)
      rw [mergeGo_cons_nil, hk]
      refine ⟨by simpa using ih1, ?_, by simpa using ih3, ?_⟩
      · simpa using ih2.cons a
      · simp only [List.length_cons, List.length_nil] at ih4 ⊢
        omega
  | case4 g a ls b rs g1 hc ih =>
      intro hg hl hr2
      subst hg
      have := hcS a b (hl a (by simp)) (hr2 b (by simp))
      rw [hc] at this
      simp at this
  | case5 g a ls b rs g1 d hc hg2 hraw g2 htb ih =>
      intro hg hl hr2
      subst hg
      have hg1 : g1 = g := compare_names_some_state hc
      obtain ⟨-, -, x, hx, hcx⟩ := tbGo_jumped_facts htb
      rw [hg1] at hcx
      have := hcS x b (hl x (by simp [hx])) (hr2 b (by simp))
      rw [hcx] at this
      simp at this
  | case6 g a ls b rs g1 d hc hg2 hraw g2 htb hr ih =>
      intro hg hl hr2
      subst hg
      have hst : g2 = g :=
        (tbGo_not_jumped_state htb (by simp)).trans (compare_names_some_state hc)
      have hk : (h g2 (some a) (some b)).1 = g2 := hh g2 (some a) (some b)
      have hr1 : hr.1 = g := hk.trans hst
      rw [hr1] at ih
      obtain ⟨ih1, ih2, ih3, ih4⟩ :=
        ih rfl (fun x hx => hl x (by simp [hx]))
          (fun x hx => hr2 x (by simp [hx]))
      rw [mergeGo_step_tbL_noRot hc hg2 hraw htb, hk, hst]
      refine ⟨by simpa using ih1, ?_, ?_, ?_⟩
      · simpa using ih2.cons a
      · simpa using ih3.cons b
      · simp only [List.length_cons, List.length_nil] at ih4 ⊢
        omega
  | case7 g a ls b rs g1 d hc hg2 hraw g2 nt htb hr ih =>
      intro hg hl hr2
      subst hg
      have hst : g2 = g :=
        (tbGo_not_jumped_state htb (by simp)).trans (compare_names_some_state hc)
      have hpermnt : (b :: nt).Perm ls := tbGo_rotated_perm htb
      have hlen : nt.length + 1 = ls.length := tbGo_rotated_length htb
      have hk : (h g2 (some b) (some b)).1 = g2 := hh g2 (some b) (some b)
      have hr1 : hr.1 = g := hk.trans hst
      rw [hr1] at ih
      obtain ⟨ih1, ih2, ih3, ih4⟩ :=
        ih rfl
          (fun x hx => by
            rcases List.mem_cons.mp hx with h1 | h1
            · exact hl x (by simp [h1])
            · have hx2 : x ∈ ls :=
                hpermnt.mem_iff.mp (List.mem_cons_of_mem b h1)
              exact hl x (List.mem_cons_of_mem a hx2))
          (fun x hx => hr2 x (by simp [hx]))
      rw [mergeGo_step_tbL_rot hc hg2 hraw htb, hk, hst]
      refine ⟨by simpa using ih1, ?_, ?_, ?_⟩
      · have step1 : (b :: (a :: nt)).Perm (a :: (b :: nt)) :=
          List.Perm.swap a b nt
        have step2 : (a :: (b :: nt)).Perm (a :: ls) := hpermnt.cons a
        have := (ih2.cons b).trans (step1.trans step2)
        simpa using this
      · simpa using ih3.cons b
      · simp only [List.length_cons, List.length_nil] at ih4 ⊢
        omega
  | case8 g a ls b rs g1 d hc hg2 hraw g2 htb ih =>
      intro hg hl hr2
      subst hg
      have hg1 : g1 = g := compare_names_some_state hc
      obtain ⟨-, -, x, hx, hcx⟩ := tbGo_jumped_facts htb
      rw [hg1] at hcx
      have := hcS x a (hr2 x (by simp [hx])) (hl a (by simp))
      rw [hcx] at this
      simp at this
  | case9 g a ls b rs g1 d hc hg2 hraw g2 htb hr ih =>
      intro hg hl hr2
      subst hg
      have hst : g2 = g :=
        (tbGo_not_jumped_state htb (by simp)).trans (compare_names_some_state hc)
      have hk : (h g2 (some a) (some b)).1 = g2 := hh g2 (some a) (some b)
      have hr1 : hr.1 = g := hk.trans hst
      rw [hr1] at ih
      obtain ⟨ih1, ih2, ih3, ih4⟩ :=
        ih rfl (fun x hx => hl x (by simp [hx]))
          (fun x hx => hr2 x (by simp [hx]))
      rw [mergeGo_step_tbR_noRot hc hg2 hraw htb, hk, hst]
      refine ⟨by simpa using ih1, ?_, ?_, ?_⟩
      · simpa using ih2.cons a
      · simpa using ih3.cons b
      · simp only [List.length_cons, List.length_nil] at ih4 ⊢
        omega
  | case10 g a ls b rs g1 d hc hg2 hraw g2 nt htb hr ih =>
      intro hg hl hr2
      subst hg
      have hst : g2 = g :=
        (tbGo_not_jumped_state htb (by simp)).trans (compare_names_some_state hc)
      have hpermnt : (a :: nt).Perm rs := tbGo_rotated_perm htb
      have hlen : nt.length + 1 = rs.length := tbGo_rotated_length htb
      have hk : (h g2 (some a) (some a)).1 = g2 := hh g2 (some a) (some a)
      have hr1 : hr.1 = g := hk.trans hst
      rw [hr1] at ih
      obtain ⟨ih1, ih2, ih3, ih4⟩ :=
        ih rfl (fun x hx => hl x (by simp [hx]))
          (fun x hx => by
            rcases List.mem_cons.mp hx with h1 | h1
            · exact hr2 x (by simp [h1])
            · have hx2 : x ∈ rs :=
                hpermnt.mem_iff.mp (List.mem_cons_of_mem a h1)
              exact hr2 x (List.mem_cons_of_mem b hx2))
      rw [mergeGo_step_tbR_rot hc hg2 hraw htb, hk, hst]
      refine ⟨by simpa using ih1, ?_, ?_, ?_⟩
      · simpa using ih2.cons a
      · have step1 : (a :: (b :: nt)).Perm (b :: (a :: nt)) :=
          List.Perm.swap b a nt
        have step2 : (b :: (a :: nt)).Perm (b :: rs) := hpermnt.cons b
        have := (ih3.cons a).trans (step1.trans step2)
        simpa using this
      · simp only [List.length_cons, List.length_nil] at ih4 ⊢
        omega
  | case11 g a ls b rs g1 d hc hng hdlt hr ih =>
      intro hg hl hr2
      subst hg
      have hg1 : g1 = g := compare_names_some_state hc
      have hk : (h g1 (some a) none).1 = g1 := hh g1 (some a) none
      have hr1 : hr.1 = g := hk.trans hg1
      rw [hr1] at ih
      obtain ⟨ih1, ih2, ih3, ih4⟩ :=
        ih rfl (fun x hx => hl x (by simp [hx])) hr2
      rw [mergeGo_step_lt hc hng hdlt, hk, hg1]
      refine ⟨by simpa using ih1, ?_, by simpa using ih3, ?_⟩
      · simpa using ih2.cons a
      · simp only [List.length_cons, List.length_nil] at ih4 ⊢
        omega
  | case12 g a ls b rs g1 d hc hng hndlt hdgt hr ih =>
      intro hg hl hr2
      subst hg
      have hg1 : g1 = g := compare_names_some_state hc
      have hk : (h g1 none (some b)).1 = g1 := hh g1 none (some b)
      have hr1 : hr.1 = g := hk.trans hg1
      rw [hr1] at ih
      obtain ⟨ih1, ih2, ih3, ih4⟩ :=
        ih rfl hl (fun x hx => hr2 x (by simp [hx]))
      rw [mergeGo_step_gt hc hng hdgt, hk, hg1]
      refine ⟨by simpa using ih1, by simpa using ih2, ?_, ?_⟩
      · simpa using ih3.cons b
      · simp only [List.length_cons, List.length_nil] at ih4 ⊢
        omega
  | case13 g a ls b rs g1 d hc hng hndlt hndgt hr ih =>
      intro hg hl hr2
      subst hg
      have hg1 : g1 = g := compare_names_some_state hc
      have hk : (h g1 (some a) (some b)).1 = g1 := hh g1 (some a) (some b)
      have hr1 : hr.1 = g := hk.trans hg1
      rw [hr1] at ih
      obtain ⟨ih1, ih2, ih3, ih4⟩ :=
        ih rfl (fun x hx => hl x (by simp [hx]))
          (fun x hx => hr2 x (by simp [hx]))
      rw [mergeGo_step_eq hc hng (by omega), hk, hg1]
      refine ⟨by simpa using ih1, ?_, ?_, ?_⟩
      · simpa using ih2.cons a
      · simpa using ih3.cons b
      · simp only [List.length_cons, List.length_nil] at ih4 ⊢
        omega

/-- Claim C10 (confirmed): for every pair of name tables, with or without
case-folding, and any state-preserving handler whose comparisons cannot
fail on the names involved, the merge delivers the names of the left table
as exactly the left components of the emitted pairs (as a permutation: the
tie-break rotation neither drops nor duplicates a name), likewise on the
right, and invokes the handler at most once per name of either table. -/
theorem merge_delivers_each_name_once (env : Env) (h : Handler)
    (g : GState) (L R : List String)
    (hh : ∀ (g2 : GState) (a b : Option String), (h g2 a b).1 = g2)
    (hcoll : ∀ a ∈ L ++ R, ∀ b ∈ L ++ R,
      (compare_names env g a b).2.isSome = true) :
    ((mergeGo env h g L R).2.filterMap (fun pv => pv.1.1)).Perm L ∧
    ((mergeGo env h g L R).2.filterMap (fun pv => pv.1.2)).Perm R ∧
    (mergeGo env h g L R).2.length ≤ L.length + R.length := by
  obtain ⟨-, h2, h3, h4⟩ :=
    mergeGo_perm_aux env h g (L ++ R) hh (fun a b ha hb => hcoll a ha b hb)
      g L R rfl (fun x hx => by simp [hx]) (fun x hx => by simp [hx])
  exact ⟨h2, h3, h4⟩

/-- Witness for merge_delivers_each_name_once at the concrete case-folding
example tables. -/
theorem merge_delivers_each_name_once_witness :
    ((mergeGo envFold handler0 gTrue ["A", "b"] ["a", "B"]).2.filterMap
        (fun pv => pv.1.1)).Perm ["A", "b"] ∧
    ((mergeGo envFold handler0 gTrue ["A", "b"] ["a", "B"]).2.filterMap
        (fun pv => pv.1.2)).Perm ["a", "B"] ∧
    (mergeGo envFold handler0 gTrue ["A", "b"] ["a", "B"]).2.length ≤ 2 + 2 :=
  merge_delivers_each_name_once envFold handler0 gTrue ["A", "b"] ["a", "B"]
    (fun _ _ _ => rfl) (by decide)

/-- The name carried by a delivered pair: the left name when present, else
the right name (every pair the merge delivers has at least one side). -/
def pairName : Pair → String
  | (some a, _) => a
  | (none, some b) => b
  | (none, none) => ""

theorem pairName_mem {out : List (Pair × Int)} {l r : List String}
    (h1 : (out.filterMap (fun pv => pv.1.1)).Perm l)
    (h2 : (out.filterMap (fun pv => pv.1.2)).Perm r) :
    ∀ pv ∈ out, pv.1 ≠ ((none : Option String), (none : Option String)) →
      pairName pv.1 ∈ l ++ r := by
  intro pv hpv hne
  match hp : pv.1 with
  | (some a, q) =>
      have ha : a ∈ out.filterMap (fun pv => pv.1.1) :=
        List.mem_filterMap.mpr ⟨pv, hpv, by rw [hp]⟩
      have := h1.mem_iff.mp ha
      simp [pairName]
      exact Or.inl this
  | (none, some b) =>
      have hb : b ∈ out.filterMap (fun pv => pv.1.2) :=
        List.mem_filterMap.mpr ⟨pv, hpv, by rw [hp]⟩
      have := h2.mem_iff.mp hb
      simp [pairName]
      exact Or.inr this
  | (none, none) => exact absurd hp hne

/-- Disjoint-table merge: with a state-preserving handler, a comparator cN
realising compare_names on the ambient names, cN transitive and
sign-antisymmetric there, the two tables sorted and their name sets
disjoint under cN, the merge emits one pair per name, each pair one-sided,
in cN-sorted delivery order. -/
theorem mergeGo_disjoint_aux (env : Env) (h : Handler) (g0 : GState)
    (cN : String → String → Int) (S : List String)
    (hh : ∀ (g2 : GState) (a b : Option String), (h g2 a b).1 = g2)
    (hcS : ∀ a b : String, a ∈ S → b ∈ S →
      compare_names env g0 a b = (g0, some (cN a b)))
    (htr : ∀ a b c : String, a ∈ S → b ∈ S → c ∈ S →
      cN a b ≤ 0 → cN b c ≤ 0 → cN a c ≤ 0)
    (hanti : ∀ a b : String, a ∈ S → b ∈ S → 0 < cN a b → cN b a < 0) :
    ∀ (g : GState) (l r : List String), g = g0 →
      (∀ x ∈ l, x ∈ S) → (∀ x ∈ r, x ∈ S) →
      (∀ a ∈ l, ∀ b ∈ r, cN a b ≠ 0) →
      List.Pairwise (fun a b => cN a b ≤ 0) l →
      List.Pairwise (fun a b => cN a b ≤ 0) r →
      (mergeGo env h g l r).2.length = l.length + r.length ∧
      (∀ pv ∈ (mergeGo env h g l r).2,
         (pv.1.1 = none ∧ pv.1.2 ≠ none) ∨ (pv.1.1 ≠ none ∧ pv.1.2 = none)) ∧
      List.Pairwise (fun x y => cN x y ≤ 0)
        ((mergeGo env h g l r).2.map (fun pv => pairName pv.1)) := by
  intro g l r
  induction g, l, r using mergeGo.induct env h with
  | case1 g =>
      intro hg _ _ _ _ _
      simp [mergeGo_nil_nil]
  | case2 g b rs hr ih =>
      intro hg hl hr2 hdisj hpl hpr
      subst hg
      have hk : (h g none (some b)).1 = g := hh g none (some b)
      have hr1 : hr.1 = g := hk
      rw [hr1] at ih
      have hrS : ∀ x ∈ rs, x ∈ S := fun x hx => hr2 x (by simp [hx])
      obtain ⟨ih1, ih2, ih3⟩ :=
        ih rfl (by simp) hrS (by simp) (by simp)
          (List.Pairwise.sublist (List.sublist_cons_self b rs) hpr)
      obtain ⟨-, p1, p2, -⟩ :=
        mergeGo_perm_aux env h g S hh
          (fun a2 b2 ha hb => by rw [hcS a2 b2 ha hb]; simp)
          g [] rs rfl (by simp) hrS
      rw [mergeGo_nil_cons, hk]
      refine ⟨by simp [ih1], ?_, ?_⟩
      · intro pv hpv
        rcases List.mem_cons.mp hpv with h1 | h1
        · left; rw [h1]; simp
        · exact ih2 pv h1
      · simp only [List.map_cons, Prod.fst]
        refine List.pairwise_cons.mpr ⟨?_, ih3⟩
        intro y hy
        obtain ⟨pv, hpv, hpn⟩ := List.mem_map.mp hy
        have hne : pv.1 ≠ ((none : Option String), (none : Option String)) := by
          rcases ih2 pv hpv with ⟨-, h2⟩ | ⟨h2, -⟩ <;> simp [Prod.ext_iff] <;>
            intro he1 he2
          · exact h2 (by rw [he2])
          · exact h2 (by rw [he1])
        have hmem := pairName_mem p1 p2 pv hpv hne
        rw [hpn] at hmem
        simp only [List.nil_append] at hmem
        rw [show pairName ((none : Option String), some b) = b from rfl]
        exact (List.pairwise_cons.mp hpr).1 y hmem
  | case3 g a ls hr ih =>
      intro hg hl hr2 hdisj hpl hpr
      subst hg
      have hk : (h g (some a) none).1 = g := hh g (some a) none
      have hr1 : hr.1 = g := hk
      rw [hr1] at ih
      have hlS : ∀ x ∈ ls, x ∈ S := fun x hx => hl x (by simp [hx])
      obtain ⟨ih1, ih2, ih3⟩ :=
        ih rfl hlS (by simp) (by simp)
          (List.Pairwise.sublist (List.sublist_cons_self a ls) hpl) (by simp)
      obtain ⟨-, p1, p2, -⟩ :=
        mergeGo_perm_aux env h g S hh
          (fun a2 b2 ha hb => by rw [hcS a2 b2 ha hb]; simp)
          g ls [] rfl hlS (by simp)
      rw [mergeGo_cons_nil, hk]
      refine ⟨by simp [ih1], ?_, ?_⟩
      · intro pv hpv
        rcases List.mem_cons.mp hpv with h1 | h1
        · right; rw [h1]; simp
        · exact ih2 pv h1
      · simp only [List.map_cons, Prod.fst]
        refine List.pairwise_cons.mpr ⟨?_, ih3⟩
        intro y hy
        obtain ⟨pv, hpv, hpn⟩ := List.mem_map.mp hy
        have hne : pv.1 ≠ ((none : Option String), (none : Option String)) := by
          rcases ih2 pv hpv with ⟨-, h2⟩ | ⟨h2, -⟩ <;> simp [Prod.ext_iff] <;>
            intro he1 he2
          · exact h2 (by rw [he2])
          · exact h2 (by rw [he1])
        have hmem := pairName_mem p1 p2 pv hpv hne
        rw [hpn] at hmem
        simp only [List.append_nil] at hmem
        rw [show pairName (some a, (none : Option String)) = a from rfl]
        exact (List.pairwise_cons.mp hpl).1 y hmem
  | case4 g a ls b rs g1 hc ih =>
      intro hg hl hr2 hdisj hpl hpr
      subst hg
      have := hcS a b (hl a (by simp)) (hr2 b (by simp))
      rw [hc] at this
      simp at this
  | case5 g a ls b rs g1 d hc hg2 hraw g2 htb ih =>
      intro hg hl hr2 hdisj hpl hpr
      subst hg
      have heq := (hcS a b (hl a (by simp)) (hr2 b (by simp))).symm.trans hc
      simp at heq
      have : cN a b ≠ 0 := hdisj a (by simp) b (by simp)
      rw [heq.2] at this
      exact absurd hg2.1 this
  | case6 g a ls b rs g1 d hc hg2 hraw g2 htb hr ih =>
      intro hg hl hr2 hdisj hpl hpr
      subst hg
      have heq := (hcS a b (hl a (by simp)) (hr2 b (by simp))).symm.trans hc
      simp at heq
      have : cN a b ≠ 0 := hdisj a (by simp) b (by simp)
      rw [heq.2] at this
      exact absurd hg2.1 this
  | case7 g a ls b rs g1 d hc hg2 hraw g2 nt htb hr ih =>
      intro hg hl hr2 hdisj hpl hpr
      subst hg
      have heq := (hcS a b (hl a (by simp)) (hr2 b (by simp))).symm.trans hc
      simp at heq
      have : cN a b ≠ 0 := hdisj a (by simp) b (by simp)
      rw [heq.2] at this
      exact absurd hg2.1 this
  | case8 g a ls b rs g1 d hc hg2 hraw g2 htb ih =>
      intro hg hl hr2 hdisj hpl hpr
      subst hg
      have heq := (hcS a b (hl a (by simp)) (hr2 b (by simp))).symm.trans hc
      simp at heq
      have : cN a b ≠ 0 := hdisj a (by simp) b (by simp)
      rw [heq.2] at this
      exact absurd hg2.1 this
  | case9 g a ls b rs g1 d hc hg2 hraw g2 htb hr ih =>
      intro hg hl hr2 hdisj hpl hpr
      subst hg
      have heq := (hcS a b (hl a (by simp)) (hr2 b (by simp))).symm.trans hc
      simp at heq
      have : cN a b ≠ 0 := hdisj a (by simp) b (by simp)
      rw [heq.2] at this
      exact absurd hg2.1 this
  | case10 g a ls b rs g1 d hc hg2 hraw g2 nt htb hr ih =>
      intro hg hl hr2 hdisj hpl hpr
      subst hg
      have heq := (hcS a b (hl a (by simp)) (hr2 b (by simp))).symm.trans hc
      simp at heq
      have : cN a b ≠ 0 := hdisj a (by simp) b (by simp)
      rw [heq.2] at this
      exact absurd hg2.1 this
  | case11 g a ls b rs g1 d hc hng hdlt hr ih =>
      intro hg hl hr2 hdisj hpl hpr
      subst hg
      have heq := (hcS a b (hl a (by simp)) (hr2 b (by simp))).symm.trans hc
      simp at heq
      obtain ⟨hge, hde⟩ := heq
      have hk : (h g1 (some a) none).1 = g1 := hh g1 (some a) none
      have hr1 : hr.1 = g := by rw [show hr.1 = (h g1 (some a) none).1 from rfl, hk, ← hge]
      rw [hr1] at ih
      have hlS : ∀ x ∈ ls, x ∈ S := fun x hx => hl x (by simp [hx])
      obtain ⟨ih1, ih2, ih3⟩ :=
        ih rfl hlS hr2 (fun x hx => hdisj x (by simp [hx]))
          (List.Pairwise.sublist (List.sublist_cons_self a ls) hpl) hpr
      obtain ⟨-, p1, p2, -⟩ :=
        mergeGo_perm_aux env h g S hh
          (fun a2 b2 ha hb => by rw [hcS a2 b2 ha hb]; simp)
          g ls (b :: rs) rfl hlS hr2
      rw [mergeGo_step_lt hc hng hdlt, hk, ← hge]
      refine ⟨by simp [ih1]; omega, ?_, ?_⟩
      · intro pv hpv
        rcases List.mem_cons.mp hpv with h1 | h1
        · right; rw [h1]; simp
        · exact ih2 pv h1
      · simp only [List.map_cons, Prod.fst]
        refine List.pairwise_cons.mpr ⟨?_, ih3⟩
        intro y hy
        obtain ⟨pv, hpv, hpn⟩ := List.mem_map.mp hy
        have hne : pv.1 ≠ ((none : Option String), (none : Option String)) := by
          rcases ih2 pv hpv with ⟨-, h2⟩ | ⟨h2, -⟩ <;> simp [Prod.ext_iff] <;>
            intro he1 he2
          · exact h2 (by rw [he2])
          · exact h2 (by rw [he1])
        have hmem := pairName_mem p1 p2 pv hpv hne
        rw [hpn] at hmem
        rw [show pairName (some a, (none : Option String)) = a from rfl]
        have haS : a ∈ S := hl a (by simp)
        have hdab : cN a b ≤ 0 := by omega
        rcases List.mem_append.mp hmem with h3 | h3
        · exact (List.pairwise_cons.mp hpl).1 y h3
        · rcases List.mem_cons.mp h3 with h4 | h4
          · rw [h4]; exact hdab
          · exact htr a b y haS (hr2 b (by simp)) (hr2 y (by simp [h4]))
              hdab ((List.pairwise_cons.mp hpr).1 y h4)
  | case12 g a ls b rs g1 d hc hng hndlt hdgt hr ih =>
      intro hg hl hr2 hdisj hpl hpr
      subst hg
      have heq := (hcS a b (hl a (by simp)) (hr2 b (by simp))).symm.trans hc
      simp at heq
      obtain ⟨hge, hde⟩ := heq
      have hk : (h g1 none (some b)).1 = g1 := hh g1 none (some b)
      have hr1 : hr.1 = g := by rw [show hr.1 = (h g1 none (some b)).1 from rfl, hk, ← hge]
      rw [hr1] at ih
      have hrS : ∀ x ∈ rs, x ∈ S := fun x hx => hr2 x (by simp [hx])
      obtain ⟨ih1, ih2, ih3⟩ :=
        ih rfl hl hrS (fun x hx b2 hb2 => hdisj x hx b2 (by simp [hb2])) hpl
          (List.Pairwise.sublist (List.sublist_cons_self b rs) hpr)
      obtain ⟨-, p1, p2, -⟩ :=
        mergeGo_perm_aux env h g S hh
          (fun a2 b2 ha hb => by rw [hcS a2 b2 ha hb]; simp)
          g (a :: ls) rs rfl hl hrS
      rw [mergeGo_step_gt hc hng hdgt, hk, ← hge]
      refine ⟨by simp [ih1]; omega, ?_, ?_⟩
      · intro pv hpv
        rcases List.mem_cons.mp hpv with h1 | h1
        · left; rw [h1]; simp
        · exact ih2 pv h1
      · simp only [List.map_cons, Prod.fst]
        refine List.pairwise_cons.mpr ⟨?_, ih3⟩
        intro y hy
        obtain ⟨pv, hpv, hpn⟩ := List.mem_map.mp hy
        have hne : pv.1 ≠ ((none : Option String), (none : Option String)) := by
          rcases ih2 pv hpv with ⟨-, h2⟩ | ⟨h2, -⟩ <;> simp [Prod.ext_iff] <;>
            intro he1 he2
          · exact h2 (by rw [he2])
          · exact h2 (by rw [he1])
        have hmem := pairName_mem p1 p2 pv hpv hne
        rw [hpn] at hmem
        rw [show pairName ((none : Option String), some b) = b from rfl]
        have haS : a ∈ S := hl a (by simp)
        have hbS : b ∈ S := hr2 b (by simp)
        have hdba : cN b a < 0 := hanti a b haS hbS (by omega)
        rcases List.mem_append.mp hmem with h3 | h3
        · rcases List.mem_cons.mp h3 with h4 | h4
          · rw [h4]; omega
          · exact htr b a y hbS haS (hl y (by simp [h4]))
              (by omega) ((List.pairwise_cons.mp hpl).1 y h4)
        · exact (List.pairwise_cons.mp hpr).1 y h3
  | case13 g a ls b rs g1 d hc hng hndlt hndgt hr ih =>
      intro hg hl hr2 hdisj hpl hpr
      subst hg
      have heq := (hcS a b (hl a (by simp)) (hr2 b (by simp))).symm.trans hc
      simp at heq
      have : cN a b ≠ 0 := hdisj a (by simp) b (by simp)
      rw [heq.2] at this
      omega

/-- Claim C5 (confirmed): for sorted name tables disjoint under the active
comparator (realised by cN, transitive and sign-antisymmetric on the names
involved, with a state-preserving handler), the merge invokes the handler
exactly once per name — |left| + |right| pairs — every delivered pair has
exactly one side null, and the pairs are delivered in the comparator's
sorted order; an exhausted side lets the other drain. -/
theorem merge_disjoint_tables (env : Env) (h : Handler) (g : GState)
    (cN : String → String → Int) (L R : List String)
    (hh : ∀ (g2 : GState) (a b : Option String), (h g2 a b).1 = g2)
    (hc : ∀ a ∈ L ++ R, ∀ b ∈ L ++ R,
      compare_names env g a b = (g, some (cN a b)))
    (htr : ∀ a ∈ L ++ R, ∀ b ∈ L ++ R, ∀ c ∈ L ++ R,
      cN a b ≤ 0 → cN b c ≤ 0 → cN a c ≤ 0)
    (hanti : ∀ a ∈ L ++ R, ∀ b ∈ L ++ R, 0 < cN a b → cN b a < 0)
    (hdisj : ∀ a ∈ L, ∀ b ∈ R, cN a b ≠ 0)
    (hL : List.Pairwise (fun a b => cN a b ≤ 0) L)
    (hR : List.Pairwise (fun a b => cN a b ≤ 0) R) :
    (mergeGo env h g L R).2.length = L.length + R.length ∧
    (∀ pv ∈ (mergeGo env h g L R).2,
       (pv.1.1 = none ∧ pv.1.2 ≠ none) ∨ (pv.1.1 ≠ none ∧ pv.1.2 = none)) ∧
    List.Pairwise (fun x y => cN x y ≤ 0)
      ((mergeGo env h g L R).2.map (fun pv => pairName pv.1)) :=
  mergeGo_disjoint_aux env h g cN (L ++ R) hh
    (fun a b ha hb => hc a ha b hb)
    (fun a b c ha hb hcm => htr a ha b hb c hcm)
    (fun a b ha hb => hanti a ha b hb)
    g L R rfl (fun x hx => by simp [hx]) (fun x hx => by simp [hx])
    hdisj hL hR

/-- Witness for merge_disjoint_tables: raw ordering, left table ["a"],
right table ["b"]. -/
theorem merge_disjoint_tables_witness :
    (mergeGo envPlain handler0 gFalse ["a"] ["b"]).2.length = 1 + 1 ∧
    (∀ pv ∈ (mergeGo envPlain handler0 gFalse ["a"] ["b"]).2,
       (pv.1.1 = none ∧ pv.1.2 ≠ none) ∨ (pv.1.1 ≠ none ∧ pv.1.2 = none)) ∧
    List.Pairwise (fun x y => file_name_cmp x y ≤ 0)
      ((mergeGo envPlain handler0 gFalse ["a"] ["b"]).2.map
        (fun pv => pairName pv.1)) :=
  merge_disjoint_tables envPlain handler0 gFalse file_name_cmp ["a"] ["b"]
    (fun _ _ _ => rfl) (by decide) (by decide) (by decide) (by decide)
    (by decide) (by decide)

theorem dir_read_none_startfile_lss (env : Env) (lss1 lss2 : Bool)
    (desc : Desc) (stream : DirStream) (so : Bool) :
    dir_read env lss1 desc stream none so
      = dir_read env lss2 desc stream none so := rfl

/-- The global-state outcome of a diff_dirs frame that reaches the merge:
the emitted collation diagnostics plus the remaining budget always equal
the caller count plus the one budget the frame grants itself by setting
locale_specific_sorting on entry. -/
theorem diff_dirs_state_budget (env : Env) (g : GState) (cmp : CompNode)
    (streams : Bool → DirStream) (h : Handler) (n0 n1 : List String)
    (hh : ∀ (g2 : GState) (a b : Option String), (h g2 a b).1 = g2)
    (hgate : ¬ (((cmp.file false).desc = Desc.NONEXISTENT ∨ dir_loop cmp false = true)
      ∧ ((cmp.file true).desc = Desc.NONEXISTENT ∨ dir_loop cmp true = true)))
    (hr0 : dir_read env g.lss (cmp.file false).desc (streams false)
      (if cmp.parents = [] then env.starting_file else none) false = some n0)
    (hr1 : dir_read env g.lss (cmp.file true).desc (streams true)
      (if cmp.parents = [] then env.starting_file else none) false = some n1) :
    (diff_dirs env g cmp streams h).1.collDiags
        + lssBit (diff_dirs env g cmp streams h).1.lss
      = g.collDiags + 1 := by
  simp only [diff_dirs, if_neg hgate]
  rw [hr0, hr1]
  simp only []
  cases hs0 : sortByE
      (fun a b => (compare_names_for_qsort env { g with lss := true } a b).2) n0 with
  | none =>
      have := mergeGo_diag_invariant env h hh
        { lss := false, collDiags := ({ g with lss := true } : GState).collDiags + 1 }
        (rawSort n0) (rawSort n1)
      simp only [lssBit] at this ⊢
      simp at this ⊢
      omega
  | some s0 =>
      cases hs1 : sortByE
          (fun a b => (compare_names_for_qsort env { g with lss := true } a b).2) n1 with
      | none =>
          have := mergeGo_diag_invariant env h hh
            { lss := false, collDiags := ({ g with lss := true } : GState).collDiags + 1 }
            (rawSort n0) (rawSort n1)
          simp only [lssBit] at this ⊢
          simp at this ⊢
          omega
      | some s1 =>
          have := mergeGo_diag_invariant env h hh { g with lss := true } s0 s1
          simp only [lssBit] at this ⊢
          simp at this ⊢
          omega

/-- Claim C3 (corrected): the collation fallback is scoped to one
diff_dirs invocation, not to the whole top-level call.  Within one
invocation that reaches its merge, at most one collation diagnostic is
emitted, and exactly one is emitted precisely when the invocation ends
with locale-specific sorting cleared (every later comparison in that frame
then uses raw ordering); moreover the frame behaves identically for every
incoming flag value — each invocation re-enables collated ordering on
entry — so a nested invocation for a matched subdirectory starts collated
again even after an outer failure, and can emit its own diagnostic. -/
theorem diff_dirs_collation_frame_scope (env : Env) (g : GState)
    (cmp : CompNode) (streams : Bool → DirStream) (h : Handler)
    (n0 n1 : List String)
    (hh : ∀ (g2 : GState) (a b : Option String), (h g2 a b).1 = g2)
    (hgate : ¬ (((cmp.file false).desc = Desc.NONEXISTENT ∨ dir_loop cmp false = true)
      ∧ ((cmp.file true).desc = Desc.NONEXISTENT ∨ dir_loop cmp true = true)))
    (hr0 : dir_read env g.lss (cmp.file false).desc (streams false)
      (if cmp.parents = [] then env.starting_file else none) false = some n0)
    (hr1 : dir_read env g.lss (cmp.file true).desc (streams true)
      (if cmp.parents = [] then env.starting_file else none) false = some n1) :
    ((diff_dirs env g cmp streams h).1.collDiags ≤ g.collDiags + 1) ∧
    ((diff_dirs env g cmp streams h).1.lss = false ↔
       (diff_dirs env g cmp streams h).1.collDiags = g.collDiags + 1) ∧
    (∀ g2 : GState, g2.collDiags = g.collDiags →
       (if cmp.parents = [] then env.starting_file else none) = none →
       diff_dirs env g2 cmp streams h = diff_dirs env g cmp streams h) := by
  have hbudget := diff_dirs_state_budget env g cmp streams h n0 n1 hh hgate hr0 hr1
  refine ⟨?_, ?_, ?_⟩
  · unfold lssBit at hbudget
    split at hbudget <;> omega
  · constructor
    · intro hl
      rw [hl] at hbudget
      simpa [lssBit] using hbudget
    · intro hd
      rw [hd] at hbudget
      by_contra hl
      simp [lssBit, Bool.not_eq_false] at hl hbudget
      rw [hl] at hbudget
      simp at hbudget
  · intro g2 hdc hsf
    rw [hsf] at hr0 hr1
    simp only [diff_dirs, if_neg hgate]
    rw [hsf]
    rw [dir_read_none_startfile_lss env g2.lss g.lss
          (cmp.file false).desc (streams false) false,
        dir_read_none_startfile_lss env g2.lss g.lss
          (cmp.file true).desc (streams true) false]
    rw [hr0, hr1]
    simp only []
    have hrec : ({ g2 with lss := true } : GState) = { g with lss := true } := by
      rw [hdc]
    rw [hrec, hdc]

/-- A plain top-level comparison node: two distinct open directories, no
ancestors. -/
def cmpPlainEx : CompNode :=
  { file := fun i => if i then ⟨"e1", Desc.OPENED 21, identB⟩
                     else ⟨"e0", Desc.OPENED 20, identA⟩
    parents := [] }

/-- Witness for diff_dirs_collation_frame_scope at a concrete, failure-free
top-level comparison. -/
theorem diff_dirs_collation_frame_scope_witness :
    ((diff_dirs envPlain gFalse cmpPlainEx (fun _ => streamAMZ) handler0).1.collDiags
       ≤ gFalse.collDiags + 1) ∧
    ((diff_dirs envPlain gFalse cmpPlainEx (fun _ => streamAMZ) handler0).1.lss = false ↔
       (diff_dirs envPlain gFalse cmpPlainEx (fun _ => streamAMZ) handler0).1.collDiags
         = gFalse.collDiags + 1) :=
  let x := diff_dirs_collation_frame_scope envPlain gFalse cmpPlainEx
    (fun _ => streamAMZ) handler0 ["a", "m", "z"] ["a", "m", "z"]
    (fun _ _ _ => rfl) (by decide) (by decide) (by decide)
  ⟨x.1, x.2.1⟩

/-- Modelled from the spec: the recursive comparison driver (compare_files,
outside this core) descends into a matched subdirectory pair — a pair with
both names present — by invoking the top-level directory-comparison entry
point diff_dirs again on a child comparison node, and returns its status;
one-sided pairs are not descended into here. -/
def recursingHandler (env : Env) (sub : CompNode)
    (substreams : Bool → DirStream) : Handler :=
  fun g a b =>
    match a, b with
    | some _, some _ =>
        let r := diff_dirs env g sub substreams handler0
        (r.1, r.2.val)
    | _, _ => (g, EXIT_SUCCESS)

/-- The outer top-level node of the collation-rescoping scenario. -/
def outerNode : CompNode :=
  { file := fun i => if i then ⟨"o1", Desc.OPENED 13, identB⟩
                     else ⟨"o0", Desc.OPENED 12, identA⟩
    parents := [] }

/-- The subdirectory node the driver recurses into. -/
def subNode : CompNode :=
  { file := fun i => if i then ⟨"s1", Desc.OPENED 15, identB⟩
                     else ⟨"s0", Desc.OPENED 14, identA⟩
    parents := [] }

/-- Outer directory contents: side 0 enumerates b then a (forcing a sort
comparison), side 1 enumerates a. -/
def outerStreams : Bool → DirStream := fun i =>
  if i then { openat_ok := true, fdopendir_ok := true
              ents := ["a"], readdir_error := false }
  else { openat_ok := true, fdopendir_ok := true
         ents := ["b", "a"], readdir_error := false }

/-- Subdirectory contents: side 0 holds x, side 1 holds y. -/
def subStreams : Bool → DirStream := fun i =>
  if i then { openat_ok := true, fdopendir_ok := true
              ents := ["y"], readdir_error := false }
  else { openat_ok := true, fdopendir_ok := true
         ents := ["x"], readdir_error := false }

/-- Claim C3 (counterexample): in a top-level comparison whose locale
always fails collation, the outer diff_dirs frame emits one diagnostic and
falls back to raw ordering, but recursing into a matched subdirectory
re-enables collation (each diff_dirs invocation sets the flag on entry)
and the nested frame emits a second diagnostic within the same top-level
call — the claim allows exactly one. -/
theorem diff_dirs_collation_rescope_counterexample :
    (diff_dirs envFail gFalse outerNode outerStreams
        (recursingHandler envFail subNode subStreams)).1.collDiags = 2 := by
  simp [diff_dirs, dir_read, keepEntry, isDotName, envFail, gFalse, outerNode,
        subNode, outerStreams, subStreams, sortByE, insertByE,
        compare_names_for_qsort, compare_collated, collFor, rawSort, sortBy,
        insertBy, file_name_cmp, strcmpL, mergeGo, compare_names, tbGo,
        jumpState, recursingHandler, handler0, dir_loop, EXIT_SUCCESS,
        EXIT_TROUBLE]

theorem foldl_max_init_le : ∀ (l : List Int) (i : Int), i ≤ l.foldl max i := by
  intro l
  induction l with
  | nil => intro i; exact le_refl i
  | cons x xs ih =>
      intro i
      exact le_trans (le_max_left i x) (ih (max i x))

theorem foldl_max_mem_le :
    ∀ (l : List Int) (i : Int), ∀ w ∈ l, w ≤ l.foldl max i := by
  intro l
  induction l with
  | nil => intro i w hw; simp at hw
  | cons x xs ih =>
      intro i w hw
      rcases List.mem_cons.mp hw with h1 | h1
      · rw [h1]
        exact le_trans (le_max_right i x) (foldl_max_init_le xs (max i x))
      · exact ih (max i x) w h1

theorem foldl_max_mem :
    ∀ (l : List Int) (i : Int), l.foldl max i = i ∨ l.foldl max i ∈ l := by
  intro l
  induction l with
  | nil => intro i; left; rfl
  | cons x xs ih =>
      intro i
      rcases ih (max i x) with h1 | h1
      · rcases le_total i x with h2 | h2
        · right
          simp only [List.foldl_cons]
          rw [h1, max_eq_right h2]
          simp
        · left
          simp only [List.foldl_cons]
          rw [h1, max_eq_left h2]
      · right
        simp only [List.foldl_cons]
        exact List.mem_cons_of_mem x h1

/-- Claim C6 (confirmed): when a side fails to read, diff_dirs emits one
diagnostic per failed side, delivers no pairs (the result does not depend
on the handler at all), and returns EXIT_TROUBLE; when both reads succeed
it returns the running maximum, seeded with EXIT_SUCCESS, of the handler
results over all delivered pairs — which is the maximum value the handler
returned whenever at least one pair was delivered and the handler results
are at least EXIT_SUCCESS. -/
theorem diff_dirs_read_errors (env : Env) (g : GState) (cmp : CompNode)
    (streams : Bool → DirStream) (h : Handler)
    (hgate : ¬ (((cmp.file false).desc = Desc.NONEXISTENT ∨ dir_loop cmp false = true)
      ∧ ((cmp.file true).desc = Desc.NONEXISTENT ∨ dir_loop cmp true = true))) :
    ((dir_read env g.lss (cmp.file false).desc (streams false)
        (if cmp.parents = [] then env.starting_file else none) false = none ∨
      dir_read env g.lss (cmp.file true).desc (streams true)
        (if cmp.parents = [] then env.starting_file else none) false = none) →
      (diff_dirs env g cmp streams h).2.pairs = [] ∧
      (diff_dirs env g cmp streams h).2.val = EXIT_TROUBLE ∧
      (diff_dirs env g cmp streams h).2.readDiags =
        (if dir_read env g.lss (cmp.file false).desc (streams false)
              (if cmp.parents = [] then env.starting_file else none) false = none
         then [(cmp.file false).name] else []) ++
        (if dir_read env g.lss (cmp.file true).desc (streams true)
              (if cmp.parents = [] then env.starting_file else none) false = none
         then [(cmp.file true).name] else []) ∧
      (∀ h2 : Handler,
         diff_dirs env g cmp streams h = diff_dirs env g cmp streams h2)) ∧
    (∀ n0 n1 : List String,
      dir_read env g.lss (cmp.file false).desc (streams false)
        (if cmp.parents = [] then env.starting_file else none) false = some n0 →
      dir_read env g.lss (cmp.file true).desc (streams true)
        (if cmp.parents = [] then env.starting_file else none) false = some n1 →
      (diff_dirs env g cmp streams h).2.val =
        ((diff_dirs env g cmp streams h).2.pairs.map Prod.snd).foldl max
          EXIT_SUCCESS ∧
      ((∀ v ∈ (diff_dirs env g cmp streams h).2.pairs.map Prod.snd,
          EXIT_SUCCESS ≤ v) →
       (diff_dirs env g cmp streams h).2.pairs ≠ [] →
       (diff_dirs env g cmp streams h).2.val
           ∈ (diff_dirs env g cmp streams h).2.pairs.map Prod.snd ∧
       ∀ w ∈ (diff_dirs env g cmp streams h).2.pairs.map Prod.snd,
         w ≤ (diff_dirs env g cmp streams h).2.val)) := by
  constructor
  · intro hfail
    cases hr0 : dir_read env g.lss (cmp.file false).desc (streams false)
        (if cmp.parents = [] then env.starting_file else none) false with
    | none =>
        cases hr1 : dir_read env g.lss (cmp.file true).desc (streams true)
            (if cmp.parents = [] then env.starting_file else none) false with
        | none =>
            refine ⟨?_, ?_, ?_, ?_⟩ <;>
              simp [diff_dirs, if_neg hgate, hr0, hr1]
        | some n1 =>
            refine ⟨?_, ?_, ?_, ?_⟩ <;>
              simp [diff_dirs, if_neg hgate, hr0, hr1]
    | some n0 =>
        cases hr1 : dir_read env g.lss (cmp.file true).desc (streams true)
            (if cmp.parents = [] then env.starting_file else none) false with
        | none =>
            refine ⟨?_, ?_, ?_, ?_⟩ <;>
              simp [diff_dirs, if_neg hgate, hr0, hr1]
        | some n1 =>
            rw [hr0, hr1] at hfail
            simp at hfail
  · intro n0 n1 hr0 hr1
    have hval : (diff_dirs env g cmp streams h).2.val =
        ((diff_dirs env g cmp streams h).2.pairs.map Prod.snd).foldl max
          EXIT_SUCCESS := by
      simp only [diff_dirs, if_neg hgate]
      rw [hr0, hr1]
      simp only []
      rw [List.foldl_map]
    refine ⟨hval, ?_⟩
    intro hpos hne
    rw [hval]
    constructor
    · rcases foldl_max_mem
          ((diff_dirs env g cmp streams h).2.pairs.map Prod.snd)
          EXIT_SUCCESS with h1 | h1
      · obtain ⟨pv, hpv⟩ := List.exists_mem_of_ne_nil _ hne
        have hv := hpos pv.2 (List.mem_map.mpr ⟨pv, hpv, rfl⟩)
        have hle := foldl_max_mem_le
          ((diff_dirs env g cmp streams h).2.pairs.map Prod.snd)
          EXIT_SUCCESS pv.2 (List.mem_map.mpr ⟨pv, hpv, rfl⟩)
        rw [h1] at hle ⊢
        have : pv.2 = EXIT_SUCCESS := le_antisymm hle hv
        rw [← this]
        exact List.mem_map.mpr ⟨pv, hpv, rfl⟩
      · exact h1
    · exact foldl_max_mem_le _ EXIT_SUCCESS

/-- Streams where side 0 fails at fdopendir and side 1 reads normally. -/
def streamsFailL : Bool → DirStream := fun i =>
  if i then streamAMZ
  else { openat_ok := true, fdopendir_ok := false, ents := [], readdir_error := false }

/-- Witness for diff_dirs_read_errors: one failing side short-circuits the
merge with no pairs and the trouble status. -/
theorem diff_dirs_read_errors_witness :
    (diff_dirs envPlain gFalse cmpPlainEx streamsFailL handler0).2.pairs = [] ∧
    (diff_dirs envPlain gFalse cmpPlainEx streamsFailL handler0).2.val
      = EXIT_TROUBLE :=
  let x := (diff_dirs_read_errors envPlain gFalse cmpPlainEx streamsFailL
      handler0 (by decide)).1 (Or.inl (by decide))
  ⟨x.1, x.2.1⟩

end DiffDir
